import Mathlib

/-!
Verification development for the generation orchestration pipeline of the
rko-takeaway-studio repository.  The TypeScript modules under
`src/lib/generation` (rag.ts, guardrails.ts, planner.ts, scriptGenerator.ts)
together with `src/lib/utils` (constants.ts, errors.ts, retry.ts) are shallowly
embedded as pure Lean functions.  External calls (LLM chat completions, the
embedding service, the vector similarity search, and the persistence layer) are
modelled by explicit outcome parameters: each call site receives the outcome the
external collaborator would have produced, and persistence effects are recorded
as an explicit trace of database operations.
-/

set_option maxHeartbeats 1000000

/-! ## Basic data model (src/types/generation.ts, src/types/user.ts) -/

inductive GenerationStatus where
  | queued | processing | rendering | completed | failed
deriving DecidableEq, Repr

inductive GenerationFormat where
  | video | podcast | slides
deriving DecidableEq, Repr

inductive TonePreset where
  | professional | casual | inspiring | technical | executive
deriving DecidableEq, Repr

inductive LengthPreset where
  | short | medium | long
deriving DecidableEq, Repr

structure GenerationCustomization where
  language : String
  tone : TonePreset
  length : LengthPreset
  extra_instruction : Option String
deriving DecidableEq, Repr

structure UserProfile where
  id : String
  role : Option String
  segment : Option String
  geo : Option String
  function : Option String
deriving DecidableEq, Repr

/-- A retrieved transcript chunk (`RAGChunk` in src/types/generation.ts).
JavaScript float similarity scores are modelled as rationals. -/
structure RAGChunk where
  id : String
  transcript_id : String
  theme : String
  content : String
  token_count : Nat
  similarity : ℚ
deriving DecidableEq, Repr

structure RAGContext where
  chunks : List RAGChunk
  query : String
  total_tokens : Nat
deriving DecidableEq, Repr

/-- JSON values, used for parsed model output (the takeaway plan is a parsed
JSON object whose shape is only checked dynamically).  JSON numbers are
restricted to integers here; none of the validated payloads carry non-integral
numbers. -/
inductive Json where
  | null
  | bool (b : Bool)
  | num (n : Int)
  | str (s : String)
  | arr (elems : List Json)
  | obj (fields : List (String × Json))
deriving Repr

/-- JavaScript errors relevant to the pipeline (src/lib/utils/errors.ts):
`GuardrailViolation`, `GenerationError`, and plain `Error`. -/
inductive JsError where
  | guardrail (message : String)
  | generationErr (message : String)
  | genericErr (message : String)
deriving DecidableEq, Repr

def JsError.message : JsError → String
  | .guardrail m => m
  | .generationErr m => m
  | .genericErr m => m

/-! ## Constants (src/lib/utils/constants.ts) -/

def MAX_RETRIES : Nat := 3

def TOP_K_CHUNKS : Nat := 10

/-! ## Prohibited patterns (src/lib/utils/constants.ts, PROHIBITED_PATTERNS)

Each case-insensitive regular expression is embedded as an executable predicate
on the lower-cased character list of the tested string.  The five regexes are:
  1. `/\$\d+(?:\.\d{1,2})?[KMB]/i`          — Financial figures
  2. `/Q[1-4]\s*(?:20|FY)\d{2}/i`           — Quarterly projections
  3. `/\b(?:competitor|versus|vs\.?|compared to)\b/i` — Competitor mentions
  4. `/\b(?:coming soon|roadmap|future release|will launch|planning to)\b/i`
                                             — Forward-looking statements
  5. `/\b(?:guaranteed|promise|ensure)\b/i` — Guarantees
-/

/-- Lower-cased character list of a string (the `/i` flag of the regexes and
`toLowerCase` are modelled by lower-casing before matching).  Implemented on
the character list so that it evaluates by kernel reduction. -/
def lowerData (s : String) : List Char := s.data.map Char.toLower

/-- Does `pat` occur at the head of `l`? -/
def startsWithList : List Char → List Char → Bool
  | [], _ => true
  | _ :: _, [] => false
  | c :: pat, x :: l => x = c && startsWithList pat l

/-- JavaScript `String.prototype.trim` (whitespace stripped at both ends). -/
def jsTrim (s : String) : String :=
  String.mk (((s.data.dropWhile Char.isWhitespace).reverse.dropWhile
    Char.isWhitespace).reverse)

def jsStartsWith (s pat : String) : Bool := startsWithList pat.data s.data

def isDigitCh (c : Char) : Bool := c.isDigit

def isKMB (c : Char) : Bool := c = 'k' || c = 'm' || c = 'b'

/-- JavaScript `\w` (ASCII word character). -/
def isWordCh (c : Char) : Bool := c.isAlphanum || c = '_'

def headKMB : List Char → Bool
  | c :: _ => isKMB c
  | [] => false

/-- Match of pattern 1 anchored at the current position:
`\$\d+(?:\.\d{1,2})?[KMB]` (on lower-cased text). -/
def finAt : List Char → Bool
  | '$' :: rest =>
    let ds := rest.takeWhile isDigitCh
    let r1 := rest.dropWhile isDigitCh
    !ds.isEmpty &&
      (headKMB r1 ||
        (match r1 with
         | '.' :: d1 :: tl =>
           isDigitCh d1 &&
             (match tl with
              | d2 :: tl2 => (isDigitCh d2 && headKMB tl2) || isKMB d2
              | [] => false)
         | _ => false))
  | _ => false

/-- Match of pattern 2 anchored at the current position:
`q[1-4]\s*(?:20|fy)\d{2}` (on lower-cased text). -/
def q2At : List Char → Bool
  | 'q' :: d :: rest =>
    (d = '1' || d = '2' || d = '3' || d = '4') &&
      (match rest.dropWhile Char.isWhitespace with
       | '2' :: '0' :: d1 :: d2 :: _ => isDigitCh d1 && isDigitCh d2
       | 'f' :: 'y' :: d1 :: d2 :: _ => isDigitCh d1 && isDigitCh d2
       | _ => false)
  | _ => false

/-- Try to consume the literal `w` at the head of `l`. -/
def litHere : List Char → List Char → Option (List Char)
  | [], l => some l
  | c :: w, x :: l => if x = c then litHere w l else none
  | _ :: _, [] => none

/-- `\b` directly after a literal ending in a word character. -/
def boundaryAfterWord : List Char → Bool
  | [] => true
  | c :: _ => !isWordCh c

/-- `\b` directly after a literal ending in `.` (a non-word character):
the boundary then requires the next character to be a word character. -/
def boundaryAfterDot : List Char → Bool
  | c :: _ => isWordCh c
  | [] => false

/-- Literal word alternative (ends in a word character) followed by `\b`. -/
def wordAlt (w : String) (l : List Char) : Bool :=
  match litHere w.data l with
  | some rest => boundaryAfterWord rest
  | none => false

/-- The alternative `vs\.` followed by `\b`. -/
def vsDotAlt (l : List Char) : Bool :=
  match litHere ['v', 's', '.'] l with
  | some rest => boundaryAfterDot rest
  | none => false

def p3Here (l : List Char) : Bool :=
  wordAlt "competitor" l || wordAlt "versus" l || vsDotAlt l || wordAlt "vs" l ||
    wordAlt "compared to" l

def p4Here (l : List Char) : Bool :=
  wordAlt "coming soon" l || wordAlt "roadmap" l || wordAlt "future release" l ||
    wordAlt "will launch" l || wordAlt "planning to" l

def p5Here (l : List Char) : Bool :=
  wordAlt "guaranteed" l || wordAlt "promise" l || wordAlt "ensure" l

/-- Scan every position of the text for an anchored match (no `\b` on the left). -/
def scanHere (p : List Char → Bool) : List Char → Bool
  | [] => false
  | c :: rest => p (c :: rest) || scanHere p rest

/-- Scan every position whose left side is a word boundary (all alternatives of
patterns 3–5 begin with a word character, so the left `\b` holds exactly when
the previous character is absent or not a word character). -/
def scanBound (p : List Char → Bool) : Option Char → List Char → Bool
  | _, [] => false
  | prev, c :: rest =>
    ((match prev with
      | none => true
      | some pc => !isWordCh pc) && p (c :: rest)) || scanBound p (some c) rest

def testP1 (s : String) : Bool := scanHere finAt (lowerData s)
def testP2 (s : String) : Bool := scanHere q2At (lowerData s)
def testP3 (s : String) : Bool := scanBound p3Here none (lowerData s)
def testP4 (s : String) : Bool := scanBound p4Here none (lowerData s)
def testP5 (s : String) : Bool := scanBound p5Here none (lowerData s)

/-- `PROHIBITED_PATTERNS`: pattern test paired with its description, in source
order. -/
def PROHIBITED_PATTERNS : List ((String → Bool) × String) :=
  [(testP1, "Financial figures"),
   (testP2, "Quarterly projections"),
   (testP3, "Competitor mentions"),
   (testP4, "Forward-looking statements"),
   (testP5, "Guarantees")]

/-- The `for … of PROHIBITED_PATTERNS` loop shared by `validatePlan` and
`validateScript`: the first matching pattern (in list order) raises a
`GuardrailViolation` with the given message prefix. -/
def checkProhibited (pfx : String) (text : String) : Except JsError Unit :=
  match PROHIBITED_PATTERNS.find? (fun pd => pd.1 text) with
  | some pd => .error (.guardrail (pfx ++ pd.2))
  | none => .ok ()

/-! ## Retriable-error classification (src/lib/utils/retry.ts) -/

/-- The retriable regexes of `isRetriableError` are all case-insensitive
literal substrings. -/
def retriablePatterns : List String :=
  ["timeout", "ECONNRESET", "ECONNREFUSED", "rate limit", "too many requests",
   "503", "502", "500", "network", "temporarily unavailable"]

def containsSub (pat : List Char) : List Char → Bool
  | [] => pat.isEmpty
  | c :: rest => startsWithList pat (c :: rest) || containsSub pat rest

/-- Case-insensitive substring test. -/
def containsCI (s pat : String) : Bool :=
  containsSub (lowerData pat) (lowerData s)

def isRetriableError (e : JsError) : Bool :=
  retriablePatterns.any (fun p => containsCI e.message p)

/-! ## JSON serialization (JSON.stringify, used by validatePlan) -/

def hexDigitCh (n : Nat) : Char :=
  if n < 10 then Char.ofNat (48 + n) else Char.ofNat (87 + n)

/-- Escape one character as JSON.stringify does (control characters other than
the named escapes are written as unicode escapes). -/
def escChar (c : Char) : String :=
  if c = '"' then "\\\""
  else if c = '\\' then "\\\\"
  else if c = '\n' then "\\n"
  else if c = '\r' then "\\r"
  else if c = '\t' then "\\t"
  else if c.toNat < 32 then
    "\\u00" ++ String.mk [hexDigitCh (c.toNat / 16), hexDigitCh (c.toNat % 16)]
  else String.singleton c

def jstr (s : String) : String :=
  "\"" ++ String.join (s.data.map escChar) ++ "\""

mutual

def stringifyJson : Json → String
  | .null => "null"
  | .bool true => "true"
  | .bool false => "false"
  | .num n => toString n
  | .str s => jstr s
  | .arr xs => "[" ++ stringifyArr xs ++ "]"
  | .obj fs => "\x7b" ++ stringifyObj fs ++ "\x7d"

def stringifyArr : List Json → String
  | [] => ""
  | [x] => stringifyJson x
  | x :: y :: xs => stringifyJson x ++ "," ++ stringifyArr (y :: xs)

def stringifyObj : List (String × Json) → String
  | [] => ""
  | [(k, v)] => jstr k ++ ":" ++ stringifyJson v
  | (k, v) :: f :: fs => jstr k ++ ":" ++ stringifyJson v ++ "," ++ stringifyObj (f :: fs)

end

/-! ## Guardrails (src/lib/generation/guardrails.ts)

Each validator receives the outcome of its LLM `chat` call as an explicit
`Except JsError String` (the call either throws or returns the response
content). -/

def replaceOnceAux (pat rep : List Char) : List Char → List Char
  | [] => []
  | c :: rest =>
    if startsWithList pat (c :: rest) then rep ++ (c :: rest).drop pat.length
    else c :: replaceOnceAux pat rep rest

/-- JavaScript `str.replace(pat, rep)` replaces the first occurrence only. -/
def replaceOnce (s pat rep : String) : String :=
  String.mk (replaceOnceAux pat.data rep.data s.data)

/-- The shared `catch (error)` clause of the three validators: rethrow a
`GuardrailViolation`, log and swallow (fail-open) every other exception. -/
def catchGuard : Except JsError Unit → Except JsError Unit
  | .error (.guardrail m) => .error (.guardrail m)
  | .error _ => .ok ()
  | .ok _ => .ok ()

/-- The try-block of `validateExtraInstruction`: one classifier LLM call; a
`BLOCKED` response raises a `GuardrailViolation`. -/
def instrTryBlock (chatOutcome : Except JsError String) : Except JsError Unit :=
  match chatOutcome with
  | .error e => .error e
  | .ok content =>
    let result := jsTrim content
    if jsStartsWith result "BLOCKED" then
      let reason := jsTrim (replaceOnce result "BLOCKED:" "")
      let reason :=
        if reason.data.isEmpty then "Instruction violates content policy" else reason
      .error (.guardrail reason)
    else .ok ()

/-- `validateExtraInstruction`: skip when the instruction is absent or blank;
otherwise classify via one LLM call inside try/catch (fail-open on classifier
failure). -/
def validateExtraInstruction : Option String → Except JsError String →
    Except JsError Unit
  | none, _ => .ok ()
  | some instr, chatOutcome =>
    if (jsTrim instr).data.length = 0 then .ok ()
    else catchGuard (instrTryBlock chatOutcome)

/-- The try-block shared by the second stage of `validatePlan` /
`validateScript`: the LLM validation call; a `VIOLATION` response raises a
`GuardrailViolation`. -/
def llmTryBlock (chatOutcome : Except JsError String) : Except JsError Unit :=
  match chatOutcome with
  | .error e => .error e
  | .ok content =>
    let result := jsTrim content
    if jsStartsWith result "VIOLATION" then
      let issue := jsTrim (replaceOnce result "VIOLATION:" "")
      let issue := if issue.data.isEmpty then "Content policy violation" else issue
      .error (.guardrail issue)
    else .ok ()

/-- Second validation stage: LLM call inside try/catch (fail-open on call
failure, `GuardrailViolation` rethrown). -/
def llmValidationStage (chatOutcome : Except JsError String) : Except JsError Unit :=
  catchGuard (llmTryBlock chatOutcome)

/-- `validatePlan`: serialize the plan (`planText`), run the
prohibited-pattern loop (outside any try/catch, hence fail-closed), then the
LLM validation stage. -/
def validatePlan (plan : Json) (chatOutcome : Except JsError String) :
    Except JsError Unit :=
  match checkProhibited "Plan contains prohibited content: " (stringifyJson plan) with
  | .error e => .error e
  | .ok _ => llmValidationStage chatOutcome

/-- `validateScript`: identical two-stage structure on the raw script text
(the LLM stage receives only `script.substring(0, 2000)`; its outcome is the
explicit parameter). -/
def validateScript (script : String) (chatOutcome : Except JsError String) :
    Except JsError Unit :=
  match checkProhibited "Script contains prohibited content: " script with
  | .error e => .error e
  | .ok _ => llmValidationStage chatOutcome

/-! ## Planner (src/lib/generation/planner.ts) -/

def jsonLookup (j : Json) (k : String) : Option Json :=
  match j with
  | .obj fs => (fs.find? (fun f => f.1 == k)).map (fun f => f.2)
  | _ => none

/-- `typeof plan === "object" && plan` (arrays are objects in JavaScript;
`null` and primitives fail the first structural check). -/
def isObjLike : Json → Bool
  | .obj _ => true
  | .arr _ => true
  | _ => false

def nonEmptyStrField (plan : Json) (k : String) : Bool :=
  match jsonLookup plan k with
  | some (.str s) => 0 < s.length
  | _ => false

def keyPointsAtLeast3 (plan : Json) : Bool :=
  match jsonLookup plan "key_points" with
  | some (.arr xs) => 3 ≤ xs.length
  | _ => false

/-- `validatePlanStructure` (planner.ts:107): the exact dynamic checks of the
source — object shape, non-empty `title`/`hook`/`framing`/`cta` strings, and
`key_points` an array of length ≥ 3.  Failures throw plain `Error`s. -/
def validatePlanStructure (plan : Json) : Except JsError Unit :=
  if !isObjLike plan then .error (.genericErr "Plan must be an object")
  else if !nonEmptyStrField plan "title" then
    .error (.genericErr "Plan must have a non-empty title")
  else if !nonEmptyStrField plan "hook" then
    .error (.genericErr "Plan must have a non-empty hook")
  else if !keyPointsAtLeast3 plan then
    .error (.genericErr "Plan must have at least 3 key points")
  else if !nonEmptyStrField plan "framing" then
    .error (.genericErr "Plan must have a non-empty framing")
  else if !nonEmptyStrField plan "cta" then
    .error (.genericErr "Plan must have a non-empty CTA")
  else .ok ()

/-- `generateTakeawayPlan`: the LLM call plus `JSON.parse` are modelled by the
`planParsed` outcome; the parsed plan is structurally validated, and any
exception in the try-block is rethrown as a plain `Error` with the
`Failed to generate takeaway plan:` prefix. -/
def generateTakeawayPlan (planParsed : Except JsError Json) : Except JsError Json :=
  match planParsed with
  | .error e => .error (.genericErr ("Failed to generate takeaway plan: " ++ e.message))
  | .ok plan =>
    match validatePlanStructure plan with
    | .error e => .error (.genericErr ("Failed to generate takeaway plan: " ++ e.message))
    | .ok _ => .ok plan

/-! ## Script generator (src/lib/generation/scriptGenerator.ts, generateScript) -/

/-- `generateScript`: one LLM call (outcome supplied); the trimmed response is
the script, and a call failure is rethrown as a plain `Error`. -/
def generateScript (chatOutcome : Except JsError String) : Except JsError String :=
  match chatOutcome with
  | .error e => .error (.genericErr ("Failed to generate script: " ++ e.message))
  | .ok content => .ok (jsTrim content)

/-! ## Context retriever (src/lib/generation/rag.ts) -/

/-- One step of the grouping loop of `diversifyByTheme`: append the chunk to
its theme's group, creating the group (at the end, preserving first-seen key
order of the JavaScript object) if absent. -/
def addChunk (groups : List (String × List RAGChunk)) (c : RAGChunk) :
    List (String × List RAGChunk) :=
  if groups.any (fun p => p.1 == c.theme) then
    groups.map (fun p => if p.1 = c.theme then (p.1, p.2 ++ [c]) else p)
  else groups ++ [(c.theme, [c])]

/-- `themeGroups` construction: group chunks by theme, groups ordered by first
occurrence of the theme (JavaScript object key insertion order). -/
def groupByTheme (chunks : List RAGChunk) : List (String × List RAGChunk) :=
  chunks.foldl addChunk []

/-- `themeGroups[theme].sort((a, b) => b.similarity - a.similarity)`:
sort a group by similarity descending. -/
def sortGroupChunks (g : List RAGChunk) : List RAGChunk :=
  g.insertionSort (fun a b => b.similarity ≤ a.similarity)

def lookupGroup (t : String) (assoc : List (String × List RAGChunk)) :
    Option (List RAGChunk) :=
  (assoc.find? (fun p => p.1 == t)).map (fun p => p.2)

def setGroup (t : String) (g : List RAGChunk)
    (assoc : List (String × List RAGChunk)) : List (String × List RAGChunk) :=
  assoc.map (fun p => if p.1 = t then (t, g) else p)

/-- The round-robin `while` loop of `diversifyByTheme` (rag.ts:138–156).
State: the mutable `themeGroups` map (`assoc`), the `themeKeys` array, the
current `themeIndex`, and the accumulated `result`.  Each iteration pops the
highest-similarity remaining chunk of the current theme (if any) and removes
the theme once exhausted, cycling the index exactly as the source does.  The
loop terminates because every iteration removes a chunk or a theme key; the
explicit fuel (`number of chunks + number of themes` at the call site) bounds
the iteration count. -/
def rrLoop : Nat → List (String × List RAGChunk) → List String → Nat → Nat →
    List RAGChunk → List RAGChunk
  | 0, _, _, _, _, result => result
  | fuel + 1, assoc, keys, idx, limit, result =>
    if result.length < limit ∧ keys ≠ [] then
      match lookupGroup (keys.getD idx "") assoc with
      | some (c :: rest) =>
        if rest.isEmpty then
          rrLoop fuel (setGroup (keys.getD idx "") rest assoc) (keys.eraseIdx idx)
            (if (keys.eraseIdx idx).length ≤ idx then 0 else idx) limit (result ++ [c])
        else
          rrLoop fuel (setGroup (keys.getD idx "") rest assoc) keys
            ((idx + 1) % keys.length) limit (result ++ [c])
      | _ =>
        rrLoop fuel assoc (keys.eraseIdx idx)
          (if (keys.eraseIdx idx).length ≤ idx then 0 else idx) limit result
    else result

/-- The `themeGroups` value once all groups are sorted by similarity
descending (state of `diversifyByTheme` just before its while loop). -/
def sortedGroups (chunks : List RAGChunk) : List (String × List RAGChunk) :=
  (groupByTheme chunks).map (fun p => (p.1, sortGroupChunks p.2))

/-- `diversifyByTheme` (rag.ts:117): group by theme, sort each group by
similarity descending, then round-robin across themes in first-seen order. -/
def diversifyByTheme (chunks : List RAGChunk) (limit : Nat) : List RAGChunk :=
  rrLoop (chunks.length + (sortedGroups chunks).length) (sortedGroups chunks)
    ((sortedGroups chunks).map (fun p => p.1)) 0 limit []

def toneToString : TonePreset → String
  | .professional => "professional"
  | .casual => "casual"
  | .inspiring => "inspiring"
  | .technical => "technical"
  | .executive => "executive"

def formatToString : GenerationFormat → String
  | .video => "video"
  | .podcast => "podcast"
  | .slides => "slides"

/-- JavaScript truthiness of an optional string field (`if (profile.role)`):
present and non-empty. -/
def strTruthy : Option String → Bool
  | some s => !s.data.isEmpty
  | none => false

/-- `buildSemanticQuery` (rag.ts:71). -/
def buildSemanticQuery (userProfile : UserProfile) (format : GenerationFormat)
    (customization : GenerationCustomization) : String :=
  let segments :=
    ["Create a " ++ toneToString customization.tone ++ " " ++ formatToString format
      ++ " takeaway"]
    ++ (match userProfile.role with
        | some r => if r.data.isEmpty then [] else ["for " ++ r]
        | none => [])
    ++ (match userProfile.segment with
        | some s => if s.data.isEmpty then [] else ["in " ++ s ++ " segment"]
        | none => [])
    ++ (match userProfile.function with
        | some f => if f.data.isEmpty then [] else ["from " ++ f ++ " perspective"]
        | none => [])
    ++ (match userProfile.geo with
        | some g => if g.data.isEmpty then [] else ["in " ++ g ++ " region"]
        | none => [])
    ++ (match customization.extra_instruction with
        | some e => if e.data.isEmpty then [] else [e]
        | none => [])
    ++ [match format with
        | .video => "focusing on visual storytelling and key messages"
        | .podcast => "emphasizing conversational insights and context"
        | .slides => "highlighting strategic takeaways and actionable insights"]
  String.intercalate " " segments

/-- `retrieveRelevantContext` (rag.ts:15): build the query, embed it, run the
similarity search (`match_transcript_chunks` with `topK * 2` candidates), fail
on a search error or an empty result, otherwise diversify and sum tokens.  The
embedding call and search outcomes are explicit parameters. -/
def retrieveRelevantContext (userProfile : UserProfile) (format : GenerationFormat)
    (customization : GenerationCustomization) (topK : Nat)
    (embedOutcome : Except JsError Unit)
    (searchOutcome : Except JsError (List RAGChunk)) : Except JsError RAGContext :=
  let query := buildSemanticQuery userProfile format customization
  match embedOutcome with
  | .error e => .error e
  | .ok _ =>
    match searchOutcome with
    | .error e => .error (.genericErr ("Failed to retrieve context: " ++ e.message))
    | .ok chunks =>
      if chunks.isEmpty then
        .error (.genericErr "No relevant content found for this query")
      else
        let diversifiedChunks := diversifyByTheme chunks topK
        .ok { chunks := diversifiedChunks
              query := query
              total_tokens := (diversifiedChunks.map (fun c => c.token_count)).sum }

/-! ## Orchestrator (src/lib/generation/scriptGenerator.ts, generateTakeaway)

The persisted `generations` row is `GenState`; every Supabase `update` call of
the orchestrator is recorded as a `DbOp` in execution order. -/

/-- Outcomes of the external calls made during one orchestration attempt. -/
structure Env where
  instrChat : Except JsError String
  embedOutcome : Except JsError Unit
  searchOutcome : Except JsError (List RAGChunk)
  planParsed : Except JsError Json
  planValChat : Except JsError String
  scriptChat : Except JsError String
  scriptValChat : Except JsError String

/-- Database writes issued by the orchestrator (and by `completeGeneration`,
which only the external rendering collaborator triggers). -/
inductive DbOp where
  | statusUpdate (status : GenerationStatus) (message : Option String)
  | setRagInfo (query : String) (chunkIds : List String)
  | setPlan (plan : Json)
  | setScript (script : String)
  | retryUpdate
  | failUpdate (message : String)
  | completeUpdate
deriving Repr

/-- Trace after Step 1 started (`ops0`). -/
def opsValidate : List DbOp :=
  [DbOp.statusUpdate .processing (some "Validating input...")]

/-- Trace after Step 2 started (`ops1`). -/
def opsRetrieve : List DbOp :=
  opsValidate ++ [DbOp.statusUpdate .processing (some "Retrieving relevant content...")]

/-- Trace after RAG info was stored and Step 3 started (`ops2`). -/
def opsPlan (context : RAGContext) : List DbOp :=
  opsRetrieve ++
    [DbOp.setRagInfo context.query (context.chunks.map (fun c => c.id)),
     DbOp.statusUpdate .processing (some "Creating takeaway plan...")]

/-- Trace after the plan was stored and Step 5 started (`ops3`). -/
def opsScript (context : RAGContext) (plan : Json) : List DbOp :=
  opsPlan context ++
    [DbOp.setPlan plan, DbOp.statusUpdate .processing (some "Writing script...")]

/-- The try-block of `generateTakeaway` (scriptGenerator.ts:265–377): the six
processing steps with their status updates and incremental persistence. -/
def processPhase (userProfile : UserProfile) (format : GenerationFormat)
    (customization : GenerationCustomization) (env : Env) :
    List DbOp × Except JsError Unit :=
  match validateExtraInstruction customization.extra_instruction env.instrChat with
  | .error e => (opsValidate, .error e)
  | .ok _ =>
    match retrieveRelevantContext userProfile format customization TOP_K_CHUNKS
        env.embedOutcome env.searchOutcome with
    | .error e => (opsRetrieve, .error e)
    | .ok context =>
      match generateTakeawayPlan env.planParsed with
      | .error e => (opsPlan context, .error e)
      | .ok plan =>
        match validatePlan plan env.planValChat with
        | .error e => (opsPlan context, .error e)
        | .ok _ =>
          match generateScript env.scriptChat with
          | .error e => (opsScript context plan, .error e)
          | .ok script =>
            match validateScript script env.scriptValChat with
            | .error e => (opsScript context plan, .error e)
            | .ok _ =>
              (opsScript context plan ++
                [DbOp.setScript script,
                 DbOp.statusUpdate .rendering (some "Preparing to render media...")],
               .ok ())

/-- `generateTakeaway` (scriptGenerator.ts:252–405): run the processing phase;
on an exception, read the persisted `retry_count` and either re-queue
(`retryGeneration` + a distinguishable `GenerationError`) when the error is
retriable and the budget is not exhausted, or mark the run failed
(`failGeneration`) and rethrow the original error. -/
def generateTakeaway (userProfile : UserProfile) (format : GenerationFormat)
    (customization : GenerationCustomization) (env : Env) (retryCount : Nat) :
    List DbOp × Except JsError Unit :=
  match (processPhase userProfile format customization env).2 with
  | .ok _ => ((processPhase userProfile format customization env).1, .ok ())
  | .error e =>
    if isRetriableError e ∧ retryCount < MAX_RETRIES then
      ((processPhase userProfile format customization env).1 ++ [DbOp.retryUpdate],
       .error (.generationErr "Generation failed, retrying..."))
    else
      ((processPhase userProfile format customization env).1 ++ [DbOp.failUpdate e.message],
       .error e)

/-- `completeGeneration` (scriptGenerator.ts:463): invoked only by the external
rendering collaborator, never by the orchestrator. -/
def completeGeneration : List DbOp := [DbOp.completeUpdate]

/-- The persisted fields of a `generations` row that the orchestrator touches. -/
structure GenState where
  status : GenerationStatus
  retry_count : Nat
  script : Option String
  takeaway_plan : Option Json
  rag_query : Option String
  rag_chunks_used : List String
  error_message : Option String

def applyOp (s : GenState) : DbOp → GenState
  | .statusUpdate st msg =>
    { s with status := st,
             error_message := match msg with | some m => some m | none => s.error_message }
  | .setRagInfo q ids => { s with rag_query := some q, rag_chunks_used := ids }
  | .setPlan p => { s with takeaway_plan := some p }
  | .setScript sc => { s with script := some sc }
  | .retryUpdate => { s with status := .queued, retry_count := s.retry_count + 1 }
  | .failUpdate m => { s with status := .failed, error_message := some m }
  | .completeUpdate => { s with status := .completed }

def applyOps (s : GenState) (ops : List DbOp) : GenState := ops.foldl applyOp s

/-- A row as created in status `queued` by the external request handler. -/
def initialGenState : GenState :=
  { status := .queued, retry_count := 0, script := none, takeaway_plan := none,
    rag_query := none, rag_chunks_used := [], error_message := none }

/-- One orchestration attempt applied to the persisted row (the catch block
reads `retry_count` from the current row). -/
def attempt (userProfile : UserProfile) (format : GenerationFormat)
    (customization : GenerationCustomization) (env : Env) (s : GenState) :
    GenState × Except JsError Unit :=
  let r := generateTakeaway userProfile format customization env s.retry_count
  (applyOps s r.1, r.2)

/-- `n` successive attempts of the same run (the external scheduler re-invokes
the orchestrator on a re-queued run). -/
def iterateAttempts (userProfile : UserProfile) (format : GenerationFormat)
    (customization : GenerationCustomization) (env : Env) :
    Nat → GenState → GenState
  | 0, s => s
  | n + 1, s =>
    (attempt userProfile format customization env
      (iterateAttempts userProfile format customization env n s)).1

/-- Status written by an operation, if any. -/
def opStatus : DbOp → Option GenerationStatus
  | .statusUpdate st _ => some st
  | .retryUpdate => some .queued
  | .failUpdate _ => some .failed
  | .completeUpdate => some .completed
  | _ => none

/-- Operations that the processing phase may issue before its final
render-ready hand-off: progress updates and incremental persistence. -/
def errPhaseOp : DbOp → Bool
  | .statusUpdate .processing _ => true
  | .setRagInfo _ _ => true
  | .setPlan _ => true
  | .setScript _ => true
  | _ => false

/-! ## Derived measures used in the statements -/

/-- Theme keys of a grouping, in order. -/
def keysOf (assoc : List (String × List RAGChunk)) : List String :=
  assoc.map Prod.fst

/-- Total number of chunks stored in a grouping. -/
def totalLen (assoc : List (String × List RAGChunk)) : Nat :=
  (assoc.map (fun p => p.2.length)).sum

/-- All chunks of a grouping, group by group. -/
def joinGroups (assoc : List (String × List RAGChunk)) : List RAGChunk :=
  (assoc.map (fun p => p.2)).flatten

/-- The chunks still available to the round-robin loop: the groups of the
still-active theme keys, in key order. -/
def remChunks (assoc : List (String × List RAGChunk)) (keys : List String) :
    List RAGChunk :=
  (keys.map (fun k => (lookupGroup k assoc).getD [])).flatten

/-- Number of distinct topics (themes) represented in a chunk list. -/
def distinctThemes (l : List RAGChunk) : Nat :=
  (l.map RAGChunk.theme).toFinset.card

/-- Invariants of the theme grouping: distinct keys, non-empty groups, every
chunk filed under its own theme. -/
def goodGroups (groups : List (String × List RAGChunk)) : Prop :=
  (keysOf groups).Nodup ∧ (∀ p ∈ groups, p.2 ≠ []) ∧
    ∀ p ∈ groups, ∀ ch ∈ p.2, ch.theme = p.1

/-! ## Concrete fixtures used by the witnesses -/

def demoProfile : UserProfile :=
  { id := "u1", role := some "Product Manager", segment := some "Enterprise",
    geo := none, function := none }

def demoCustomization : GenerationCustomization :=
  { language := "en", tone := .professional, length := .medium,
    extra_instruction := none }

def demoChunk : RAGChunk :=
  { id := "c1", transcript_id := "t1", theme := "growth",
    content := "notes on growth", token_count := 12, similarity := 9 }

def demoPlan : Json :=
  .obj [("title", .str "Keynote notes"), ("hook", .str "Why it matters"),
        ("key_points", .arr [.str "One", .str "Two", .str "Three"]),
        ("framing", .str "Keep it simple"), ("cta", .str "Browse the board")]

def wideTitle : String := "aaaaaaaaaaaaaaaaaaaaaaaaaaaaaaaaaaaaaaaaaaaaaaaaaaaaaaaaaaaaa"

def wideKeyPoints : List Json :=
  [.str "1", .str "2", .str "3", .str "4", .str "5", .str "6"]

/-- A plan that passes every structural check but has six key points and a
61-character title. -/
def widePlan : Json :=
  .obj [("title", .str wideTitle), ("hook", .str "h"),
        ("key_points", .arr wideKeyPoints),
        ("framing", .str "f"), ("cta", .str "c")]

/-- A script matching all five prohibited categories. -/
def wBadScript : String := "guaranteed roadmap versus q1 2025 $5m plan"

/-- A plan whose serialization matches all five prohibited categories. -/
def wBadPlan : Json := .obj [("title", .str wBadScript)]

/-- Candidates over three distinct topics. -/
def wChunksC1 : List RAGChunk :=
  [{ id := "c1", transcript_id := "t", theme := "growth", content := "g",
     token_count := 5, similarity := 9 },
   { id := "c2", transcript_id := "t", theme := "culture", content := "c",
     token_count := 5, similarity := 8 },
   { id := "c3", transcript_id := "t", theme := "product", content := "p",
     token_count := 5, similarity := 7 },
   { id := "c4", transcript_id := "t", theme := "growth", content := "g2",
     token_count := 5, similarity := 6 }]

/-- A plan with only two key points. -/
def thinPlan : Json :=
  .obj [("title", .str "t"), ("hook", .str "h"),
        ("key_points", .arr [.str "1", .str "2"]),
        ("framing", .str "f"), ("cta", .str "c")]

/-- An environment whose run reaches script validation, where the LLM
validator reports a violation whose reason text happens to match the
retriable pattern `rate limit`. -/
def envGuardRetriable : Env :=
  { instrChat := .ok "ALLOWED", embedOutcome := .ok (),
    searchOutcome := .ok [demoChunk], planParsed := .ok demoPlan,
    planValChat := .ok "APPROVED",
    scriptChat := .ok "A friendly walkthrough of the keynote ideas.",
    scriptValChat := .ok "VIOLATION: exceeds the rate limit policy" }

/-- Same run, but the script validator reports an ordinary policy violation
(no retriable wording). -/
def envGuardPlain : Env :=
  { envGuardRetriable with
    scriptValChat := .ok "VIOLATION: mentions pricing details" }

/-- A run whose similarity search call fails with a timeout. -/
def envTimeout : Env :=
  { envGuardRetriable with searchOutcome := .error (.genericErr "timeout") }

/-- A run whose similarity search returns zero chunks above the threshold. -/
def envNoChunks : Env :=
  { envGuardRetriable with searchOutcome := .ok [] }

/-- A fully successful run. -/
def envHappy : Env :=
  { envGuardRetriable with scriptValChat := .ok "APPROVED" }

section SanityChecks

example : testP1 "we made $5M last year" = true := by decide
example : testP2 "results in Q1 2025" = true := by decide
example : testP3 "us versus them" = true := by decide
example : testP3 "universal" = false := by decide
example : testP4 "the roadmap says" = true := by decide
example : testP5 "guaranteed win" = true := by decide
example : testP5 "unsure" = false := by decide
example : isRetriableError (.guardrail "subject to rate limit") = true := by decide
example : isRetriableError (.genericErr "No relevant content found for this query") = false := by
  decide

def sChunk (i : Nat) (t : String) (sim : ℚ) : RAGChunk :=
  { id := "c" ++ toString i, transcript_id := "t", theme := t, content := "x",
    token_count := 1, similarity := sim }

example :
    (diversifyByTheme
      [sChunk 1 "a" 9, sChunk 2 "a" 8, sChunk 3 "b" 7, sChunk 4 "c" 6] 3).map
      RAGChunk.theme = ["a", "b", "c"] := by decide

example :
    (diversifyByTheme
      [sChunk 1 "a" 8, sChunk 2 "a" 9, sChunk 3 "b" 7] 3).map
      RAGChunk.id = ["c2", "c3", "c1"] := by decide

end SanityChecks

/-! ## Lemmas about the grouping structure -/

theorem lookupGroup_mem {t : String} {assoc : List (String × List RAGChunk)}
    {g : List RAGChunk} (h : lookupGroup t assoc = some g) : (t, g) ∈ assoc := by
  induction assoc with
  | nil => simp [lookupGroup] at h
  | cons p rest ih =>
    by_cases hp : p.1 = t
    · unfold lookupGroup at h
      rw [List.find?_cons_of_pos _ (by simp [hp])] at h
      simp only [Option.map_some'] at h
      have : p = (t, g) := by
        cases p with
        | mk a b => simp_all
      rw [← this]
      exact List.mem_cons_self _ _
    · unfold lookupGroup at h
      rw [List.find?_cons_of_neg _ (by simp [hp])] at h
      exact List.mem_cons_of_mem _ (ih h)

theorem setGroup_of_forall_ne {t : String} {g : List RAGChunk}
    {assoc : List (String × List RAGChunk)} (h : ∀ p ∈ assoc, p.1 ≠ t) :
    setGroup t g assoc = assoc := by
  unfold setGroup
  conv_rhs => rw [← List.map_id assoc]
  exact List.map_congr_left (fun p hp => by simp [if_neg (h p hp)])

theorem keysOf_setGroup (t : String) (g : List RAGChunk)
    (assoc : List (String × List RAGChunk)) :
    keysOf (setGroup t g assoc) = keysOf assoc := by
  unfold keysOf setGroup
  rw [List.map_map]
  refine List.map_congr_left (fun p _ => ?_)
  by_cases hp : p.1 = t <;> simp [hp]

theorem mem_setGroup {p' : String × List RAGChunk} {t : String} {g : List RAGChunk}
    {assoc : List (String × List RAGChunk)} (h : p' ∈ setGroup t g assoc) :
    p' = (t, g) ∨ p' ∈ assoc := by
  unfold setGroup at h
  obtain ⟨q, hq, hfq⟩ := List.mem_map.mp h
  by_cases hqt : q.1 = t
  · rw [if_pos hqt] at hfq
    exact Or.inl hfq.symm
  · rw [if_neg hqt] at hfq
    exact Or.inr (hfq ▸ hq)

theorem lookupGroup_setGroup_self (t : String) (g : List RAGChunk)
    (assoc : List (String × List RAGChunk)) :
    lookupGroup t (setGroup t g assoc) = (lookupGroup t assoc).map (fun _ => g) := by
  induction assoc with
  | nil => simp [lookupGroup, setGroup]
  | cons p rest ih =>
    by_cases hp : p.1 = t
    · unfold lookupGroup setGroup
      simp only [List.map_cons, if_pos hp]
      rw [List.find?_cons_of_pos _ (by simp), List.find?_cons_of_pos _ (by simp [hp])]
      simp
    · unfold lookupGroup setGroup
      simp only [List.map_cons, if_neg hp]
      rw [List.find?_cons_of_neg _ (by simp [hp]), List.find?_cons_of_neg _ (by simp [hp])]
      exact ih

theorem lookupGroup_setGroup_ne {k t : String} (hkt : k ≠ t) (g : List RAGChunk)
    (assoc : List (String × List RAGChunk)) :
    lookupGroup k (setGroup t g assoc) = lookupGroup k assoc := by
  induction assoc with
  | nil => simp [lookupGroup, setGroup]
  | cons p rest ih =>
    by_cases hp : p.1 = t
    · unfold lookupGroup setGroup
      simp only [List.map_cons, if_pos hp]
      rw [List.find?_cons_of_neg _ (by simp [Ne.symm hkt]),
        List.find?_cons_of_neg _ (by simp [hp, Ne.symm hkt])]
      exact ih
    · by_cases hpk : p.1 = k
      · unfold lookupGroup setGroup
        simp only [List.map_cons, if_neg hp]
        rw [List.find?_cons_of_pos _ (by simp [hpk]),
          List.find?_cons_of_pos _ (by simp [hpk])]
      · unfold lookupGroup setGroup
        simp only [List.map_cons, if_neg hp]
        rw [List.find?_cons_of_neg _ (by simp [hpk]),
          List.find?_cons_of_neg _ (by simp [hpk])]
        exact ih

theorem totalLen_setGroup_pop {t : String} {c : RAGChunk} {rest : List RAGChunk}
    {assoc : List (String × List RAGChunk)} (hnd : (keysOf assoc).Nodup)
    (hlook : lookupGroup t assoc = some (c :: rest)) :
    totalLen (setGroup t rest assoc) + 1 = totalLen assoc := by
  induction assoc with
  | nil => simp [lookupGroup] at hlook
  | cons p tl ih =>
    simp only [keysOf, List.map_cons, List.nodup_cons] at hnd
    by_cases hp : p.1 = t
    · unfold lookupGroup at hlook
      rw [List.find?_cons_of_pos _ (by simp [hp])] at hlook
      simp only [Option.map_some'] at hlook
      have hnot : ∀ q ∈ tl, q.1 ≠ t := by
        intro q hq hq1
        exact hnd.1 (hp ▸ hq1 ▸ List.mem_map_of_mem Prod.fst hq)
      unfold setGroup totalLen
      simp only [List.map_cons, if_pos hp, List.sum_cons]
      rw [show (List.map (fun q => if q.1 = t then (t, rest) else q) tl) = tl from
        setGroup_of_forall_ne hnot]
      have hlen : p.2.length = rest.length + 1 := by
        rw [Option.some.inj hlook]; simp
      simp only [totalLen] at *
      omega
    · unfold lookupGroup at hlook
      rw [List.find?_cons_of_neg _ (by simp [hp])] at hlook
      have := ih hnd.2 hlook
      unfold setGroup totalLen at *
      simp only [List.map_cons, if_neg hp, List.sum_cons]
      omega

theorem lookupGroup_isSome_of_mem {k : String} {assoc : List (String × List RAGChunk)}
    (h : k ∈ keysOf assoc) : ∃ g, lookupGroup k assoc = some g := by
  induction assoc with
  | nil => simp [keysOf] at h
  | cons p rest ih =>
    by_cases hp : p.1 = k
    · exact ⟨p.2, by unfold lookupGroup; rw [List.find?_cons_of_pos _ (by simp [hp])]; rfl⟩
    · simp only [keysOf, List.map_cons, List.mem_cons] at h
      rcases h with h | h
      · exact absurd h.symm hp
      · obtain ⟨g, hg⟩ := ih h
        exact ⟨g, by unfold lookupGroup at hg ⊢
                     rw [List.find?_cons_of_neg _ (by simp [hp])]; exact hg⟩

/-! ## Lemmas about groupByTheme -/

theorem keysOf_addChunk (g : List (String × List RAGChunk)) (c : RAGChunk) :
    keysOf (addChunk g c) =
      if c.theme ∈ keysOf g then keysOf g else keysOf g ++ [c.theme] := by
  have hany : (g.any (fun p => p.1 == c.theme) = true) ↔ c.theme ∈ keysOf g := by
    simp [List.any_eq_true, keysOf, List.mem_map, beq_iff_eq]
  unfold addChunk
  by_cases hmem : c.theme ∈ keysOf g
  · rw [if_pos (hany.mpr hmem), if_pos hmem]
    unfold keysOf
    rw [List.map_map]
    refine List.map_congr_left (fun p _ => ?_)
    by_cases hp : p.1 = c.theme <;> simp [hp]
  · rw [if_neg (fun h => hmem (hany.mp h)), if_neg hmem]
    simp [keysOf]

theorem nodup_keysOf_addChunk {g : List (String × List RAGChunk)} {c : RAGChunk}
    (hnd : (keysOf g).Nodup) : (keysOf (addChunk g c)).Nodup := by
  rw [keysOf_addChunk]
  by_cases hmem : c.theme ∈ keysOf g
  · rwa [if_pos hmem]
  · rw [if_neg hmem]
    simpa [List.nodup_append] using ⟨hnd, hmem⟩

theorem goodGroups_addChunk {g : List (String × List RAGChunk)} {c : RAGChunk}
    (hg : goodGroups g) : goodGroups (addChunk g c) := by
  obtain ⟨hnd, hne, hthm⟩ := hg
  refine ⟨nodup_keysOf_addChunk hnd, ?_, ?_⟩
  · intro p hp
    unfold addChunk at hp
    split at hp
    · obtain ⟨q, hq, hfq⟩ := List.mem_map.mp hp
      by_cases hq1 : q.1 = c.theme
      · rw [if_pos hq1] at hfq
        rw [← hfq]
        simp
      · rw [if_neg hq1] at hfq
        exact hfq ▸ hne q hq
    · rcases List.mem_append.mp hp with hp | hp
      · exact hne p hp
      · simp only [List.mem_singleton] at hp
        rw [hp]
        simp
  · intro p hp ch hch
    unfold addChunk at hp
    split at hp
    · obtain ⟨q, hq, hfq⟩ := List.mem_map.mp hp
      by_cases hq1 : q.1 = c.theme
      · rw [if_pos hq1] at hfq
        rw [← hfq] at hch ⊢
        simp only at hch ⊢
        rcases List.mem_append.mp hch with hc | hc
        · exact hthm q hq ch hc
        · simp only [List.mem_singleton] at hc
          rw [hc, hq1]
      · rw [if_neg hq1] at hfq
        subst hfq
        exact hthm q hq ch hch
    · rcases List.mem_append.mp hp with hp | hp
      · exact hthm p hp ch hch
      · simp only [List.mem_singleton] at hp
        rw [hp] at hch ⊢
        simp only [List.mem_singleton] at hch
        rw [hch]

theorem goodGroups_foldl {l : List RAGChunk} :
    ∀ {acc : List (String × List RAGChunk)}, goodGroups acc →
      goodGroups (l.foldl addChunk acc) := by
  induction l with
  | nil => intro acc h; exact h
  | cons c l ih =>
    intro acc h
    exact ih (goodGroups_addChunk h)

theorem goodGroups_groupByTheme (chunks : List RAGChunk) :
    goodGroups (groupByTheme chunks) := by
  unfold groupByTheme
  exact goodGroups_foldl ⟨by simp [keysOf], by simp, by simp⟩

theorem totalLen_addChunk {g : List (String × List RAGChunk)} {c : RAGChunk}
    (hnd : (keysOf g).Nodup) : totalLen (addChunk g c) = totalLen g + 1 := by
  have hany : (g.any (fun p => p.1 == c.theme) = true) ↔ c.theme ∈ keysOf g := by
    simp [List.any_eq_true, keysOf, List.mem_map, beq_iff_eq]
  unfold addChunk
  by_cases hmem : c.theme ∈ keysOf g
  · rw [if_pos (hany.mpr hmem)]
    clear hany
    induction g with
    | nil => simp [keysOf] at hmem
    | cons p tl ih =>
      simp only [keysOf, List.map_cons, List.nodup_cons] at hnd
      by_cases hp : p.1 = c.theme
      · have hnot : ∀ q ∈ tl, q.1 ≠ c.theme := by
          intro q hq hq1
          exact hnd.1 (hp ▸ hq1 ▸ List.mem_map_of_mem Prod.fst hq)
        simp only [List.map_cons, if_pos hp, totalLen, List.sum_cons]
        rw [show (List.map (fun q => if q.1 = c.theme then (q.1, q.2 ++ [c]) else q) tl)
            = List.map id tl from
          List.map_congr_left (fun q hq => by simp [if_neg (hnot q hq)])]
        simp only [List.map_id, List.length_append, List.length_singleton]
        omega
      · simp only [keysOf, List.map_cons, List.mem_cons] at hmem
        rcases hmem with hmem | hmem
        · exact absurd hmem.symm hp
        · simp only [List.map_cons, if_neg hp, totalLen, List.sum_cons]
          have := ih hnd.2 hmem
          simp only [totalLen] at this
          omega
  · rw [if_neg (fun h => hmem (hany.mp h))]
    simp [totalLen]

theorem totalLen_foldl {l : List RAGChunk} :
    ∀ {acc : List (String × List RAGChunk)}, (keysOf acc).Nodup →
      totalLen (l.foldl addChunk acc) = totalLen acc + l.length := by
  induction l with
  | nil => intro acc _; simp
  | cons c l ih =>
    intro acc hnd
    simp only [List.foldl_cons]
    rw [ih (nodup_keysOf_addChunk hnd), totalLen_addChunk hnd]
    simp only [List.length_cons]
    omega

theorem totalLen_groupByTheme (chunks : List RAGChunk) :
    totalLen (groupByTheme chunks) = chunks.length := by
  unfold groupByTheme
  rw [totalLen_foldl (by simp [keysOf])]
  simp [totalLen]

theorem joinGroups_addChunk {g : List (String × List RAGChunk)} {c : RAGChunk}
    (hnd : (keysOf g).Nodup) :
    List.Perm (joinGroups (addChunk g c)) (joinGroups g ++ [c]) := by
  have hany : (g.any (fun p => p.1 == c.theme) = true) ↔ c.theme ∈ keysOf g := by
    simp [List.any_eq_true, keysOf, List.mem_map, beq_iff_eq]
  unfold addChunk
  by_cases hmem : c.theme ∈ keysOf g
  · rw [if_pos (hany.mpr hmem)]
    clear hany
    induction g with
    | nil => simp [keysOf] at hmem
    | cons p tl ih =>
      simp only [keysOf, List.map_cons, List.nodup_cons] at hnd
      by_cases hp : p.1 = c.theme
      · have hnot : ∀ q ∈ tl, q.1 ≠ c.theme := by
          intro q hq hq1
          exact hnd.1 (hp ▸ hq1 ▸ List.mem_map_of_mem Prod.fst hq)
        simp only [List.map_cons, if_pos hp, joinGroups, List.flatten_cons]
        rw [show (List.map (fun q => if q.1 = c.theme then (q.1, q.2 ++ [c]) else q) tl)
            = List.map id tl from
          List.map_congr_left (fun q hq => by simp [if_neg (hnot q hq)])]
        simp only [List.map_id]
        have h1 : (p.2 ++ [c]) ++ (List.map (fun q => q.2) tl).flatten
            = p.2 ++ (c :: (List.map (fun q => q.2) tl).flatten) := by
          simp [List.append_assoc]
        have h2 : p.2 ++ ((List.map (fun q => q.2) tl).flatten ++ [c])
            = (p.2 ++ (List.map (fun q => q.2) tl).flatten) ++ [c] := by
          simp [List.append_assoc]
        rw [h1, ← h2]
        exact List.Perm.append_left _ (List.perm_append_singleton _ _).symm
      · simp only [keysOf, List.map_cons, List.mem_cons] at hmem
        rcases hmem with hmem | hmem
        · exact absurd hmem.symm hp
        · simp only [List.map_cons, if_neg hp, joinGroups, List.flatten_cons]
          have hih := ih hnd.2 hmem
          simp only [joinGroups] at hih
          have h2 : p.2 ++ ((List.map (fun q => q.2) tl).flatten ++ [c])
              = (p.2 ++ (List.map (fun q => q.2) tl).flatten) ++ [c] := by
            simp [List.append_assoc]
          rw [← h2]
          exact List.Perm.append_left _ hih
  · rw [if_neg (fun h => hmem (hany.mp h))]
    simp [joinGroups]

theorem joinGroups_foldl {l : List RAGChunk} :
    ∀ {acc : List (String × List RAGChunk)}, (keysOf acc).Nodup →
      List.Perm (joinGroups (l.foldl addChunk acc)) (joinGroups acc ++ l) := by
  induction l with
  | nil => intro acc _; simp
  | cons c l ih =>
    intro acc hnd
    simp only [List.foldl_cons]
    refine List.Perm.trans (ih (nodup_keysOf_addChunk hnd)) ?_
    have h2 : (joinGroups acc ++ [c]) ++ l = joinGroups acc ++ (c :: l) := by
      simp [List.append_assoc]
    rw [← h2]
    exact List.Perm.append_right _ (joinGroups_addChunk hnd)

theorem joinGroups_groupByTheme (chunks : List RAGChunk) :
    List.Perm (joinGroups (groupByTheme chunks)) chunks := by
  unfold groupByTheme
  have h := @joinGroups_foldl chunks [] (by simp [keysOf])
  simpa [joinGroups] using h

theorem mem_keysOf_foldl (l : List RAGChunk) :
    ∀ (acc : List (String × List RAGChunk)) (t : String),
      t ∈ keysOf (l.foldl addChunk acc) ↔
        t ∈ keysOf acc ∨ t ∈ l.map RAGChunk.theme := by
  induction l with
  | nil => intro acc t; simp
  | cons c l ih =>
    intro acc t
    simp only [List.foldl_cons, ih, keysOf_addChunk]
    by_cases hmem : c.theme ∈ keysOf acc
    · rw [if_pos hmem]
      simp only [List.map_cons, List.mem_cons]
      constructor
      · rintro (h | h)
        · exact Or.inl h
        · exact Or.inr (Or.inr h)
      · rintro (h | h | h)
        · exact Or.inl h
        · exact Or.inl (h ▸ hmem)
        · exact Or.inr h
    · rw [if_neg hmem]
      simp only [List.mem_append, List.mem_singleton, List.map_cons, List.mem_cons]
      tauto

theorem mem_keysOf_groupByTheme (chunks : List RAGChunk) (t : String) :
    t ∈ keysOf (groupByTheme chunks) ↔ t ∈ chunks.map RAGChunk.theme := by
  unfold groupByTheme
  rw [mem_keysOf_foldl]
  simp [keysOf]

theorem length_keysOf_groupByTheme (chunks : List RAGChunk) :
    (keysOf (groupByTheme chunks)).length = distinctThemes chunks := by
  have hnd := (goodGroups_groupByTheme chunks).1
  rw [← List.toFinset_card_of_nodup hnd]
  unfold distinctThemes
  congr 1
  ext t
  simp [mem_keysOf_groupByTheme]

/-! ## Lemmas about sortedGroups -/

theorem sortGroupChunks_perm (g : List RAGChunk) :
    List.Perm (sortGroupChunks g) g :=
  List.perm_insertionSort _ g

theorem keysOf_sortedGroups (chunks : List RAGChunk) :
    keysOf (sortedGroups chunks) = keysOf (groupByTheme chunks) := by
  unfold sortedGroups keysOf
  rw [List.map_map]
  exact List.map_congr_left (fun p _ => rfl)

theorem goodGroups_sortedGroups (chunks : List RAGChunk) :
    goodGroups (sortedGroups chunks) := by
  obtain ⟨hnd, hne, hthm⟩ := goodGroups_groupByTheme chunks
  refine ⟨by rw [keysOf_sortedGroups]; exact hnd, ?_, ?_⟩
  · intro p hp
    obtain ⟨q, hq, hfq⟩ := List.mem_map.mp hp
    rw [← hfq]
    intro hempty
    simp only at hempty
    have hlen := (sortGroupChunks_perm q.2).length_eq
    rw [hempty] at hlen
    exact hne q hq (List.length_eq_zero.mp hlen.symm)
  · intro p hp ch hch
    obtain ⟨q, hq, hfq⟩ := List.mem_map.mp hp
    rw [← hfq] at hch ⊢
    simp only at hch ⊢
    exact hthm q hq ch ((sortGroupChunks_perm q.2).mem_iff.mp hch)

theorem totalLen_sortedGroups (chunks : List RAGChunk) :
    totalLen (sortedGroups chunks) = chunks.length := by
  have h : totalLen (sortedGroups chunks) = totalLen (groupByTheme chunks) := by
    unfold sortedGroups totalLen
    rw [List.map_map]
    apply congrArg List.sum
    apply List.map_congr_left
    intro p _
    simp only [Function.comp_apply]
    exact (sortGroupChunks_perm p.2).length_eq
  rw [h, totalLen_groupByTheme]

theorem joinGroups_sortedGroups (chunks : List RAGChunk) :
    List.Perm (joinGroups (sortedGroups chunks)) chunks := by
  refine List.Perm.trans ?_ (joinGroups_groupByTheme chunks)
  unfold sortedGroups joinGroups
  rw [List.map_map]
  induction groupByTheme chunks with
  | nil => simp
  | cons p l ih =>
    simp only [List.map_cons, List.flatten_cons, Function.comp]
    exact List.Perm.append (sortGroupChunks_perm p.2) ih

/-! ## Rotation bookkeeping for the round-robin index -/

theorem rot_head {keys : List String} {idx : Nat} (h : idx < keys.length) :
    keys.rotate idx = keys.getD idx "" :: (keys.drop (idx + 1) ++ keys.take idx) := by
  rw [List.rotate_eq_drop_append_take (le_of_lt h), List.getD_eq_getElem _ _ h,
    List.drop_eq_getElem_cons h, List.cons_append]

theorem rot_next {keys : List String} {idx : Nat} (h : idx < keys.length) :
    keys.rotate ((idx + 1) % keys.length)
      = (keys.drop (idx + 1) ++ keys.take idx) ++ [keys.getD idx ""] := by
  rw [List.rotate_mod, ← List.rotate_rotate, rot_head h]
  have hone : ∀ (a : String) (l : List String), (a :: l).rotate 1 = l ++ [a] := by
    intro a l
    have := List.rotate_cons_succ l a 0
    simpa using this
  exact hone _ _

theorem rot_erase {keys : List String} {idx : Nat} (h : idx < keys.length) :
    (keys.eraseIdx idx).rotate (if (keys.eraseIdx idx).length ≤ idx then 0 else idx)
      = keys.drop (idx + 1) ++ keys.take idx := by
  have hlen : (keys.eraseIdx idx).length + 1 = keys.length :=
    List.length_eraseIdx_add_one h
  have htake : (keys.take idx).length = idx := by
    rw [List.length_take]
    omega
  by_cases hc : (keys.eraseIdx idx).length ≤ idx
  · rw [if_pos hc, List.rotate_zero, List.eraseIdx_eq_take_drop_succ]
    have hdrop : keys.drop (idx + 1) = [] := by
      rw [List.drop_eq_nil_iff]
      omega
    rw [hdrop]
    simp
  · rw [if_neg hc, List.eraseIdx_eq_take_drop_succ]
    rw [List.rotate_eq_drop_append_take (by simp; omega)]
    rw [List.drop_left' htake, List.take_left' htake]

theorem getD_not_mem_eraseIdx {keys : List String} {idx : Nat} (hnd : keys.Nodup)
    (h : idx < keys.length) : keys.getD idx "" ∉ keys.eraseIdx idx := by
  rw [List.getD_eq_getElem _ _ h, ← List.Nodup.erase_getElem hnd idx h]
  exact List.Nodup.not_mem_erase hnd

/-! ## The round-robin loop: first-round theme coverage

One while-loop iteration pops the current theme's best chunk and advances, so
starting from index `idx` the first `min keys.length (limit - result.length)`
chunks appended by the loop carry the themes `keys.rotate idx`, one theme
each, in rotated key order. -/

theorem rrLoop_spec :
    ∀ (fuel : Nat) (assoc : List (String × List RAGChunk)) (keys : List String)
      (idx limit : Nat) (result : List RAGChunk),
      totalLen assoc + keys.length ≤ fuel →
      (keysOf assoc).Nodup →
      (∀ p ∈ assoc, ∀ ch ∈ p.2, ch.theme = p.1) →
      (∀ k ∈ keys, ∃ c rest, lookupGroup k assoc = some (c :: rest)) →
      keys.Nodup →
      (keys ≠ [] → idx < keys.length) →
      ∃ out, rrLoop fuel assoc keys idx limit result = result ++ out ∧
        (out.map RAGChunk.theme).take (min keys.length (limit - result.length)) =
          (keys.rotate idx).take (min keys.length (limit - result.length)) := by
  intro fuel
  induction fuel with
  | zero =>
    intro assoc keys idx limit result hfuel hnd hthm hkeys hknd hidx
    have hkeys0 : keys = [] := List.length_eq_zero.mp (by omega)
    subst hkeys0
    exact ⟨[], by simp [rrLoop], by simp⟩
  | succ fuel ih =>
    intro assoc keys idx limit result hfuel hnd hthm hkeys hknd hidx
    by_cases hcond : result.length < limit ∧ keys ≠ []
    · obtain ⟨hlt, hne⟩ := hcond
      have hidx' : idx < keys.length := hidx hne
      have hmem : keys.getD idx "" ∈ keys := by
        rw [List.getD_eq_getElem _ _ hidx']
        exact List.getElem_mem _
      obtain ⟨c, rest, hlook⟩ := hkeys _ hmem
      have hmemassoc := lookupGroup_mem hlook
      have hctheme : c.theme = keys.getD idx "" :=
        hthm _ hmemassoc c (List.mem_cons_self _ _)
      have hpop := totalLen_setGroup_pop hnd hlook
      have hstep : rrLoop (fuel + 1) assoc keys idx limit result =
          if rest.isEmpty then
            rrLoop fuel (setGroup (keys.getD idx "") rest assoc) (keys.eraseIdx idx)
              (if (keys.eraseIdx idx).length ≤ idx then 0 else idx) limit (result ++ [c])
          else
            rrLoop fuel (setGroup (keys.getD idx "") rest assoc) keys
              ((idx + 1) % keys.length) limit (result ++ [c]) := by
        simp only [rrLoop]
        rw [if_pos ⟨hlt, hne⟩, hlook]
      have hnd' : (keysOf (setGroup (keys.getD idx "") rest assoc)).Nodup := by
        rw [keysOf_setGroup]; exact hnd
      have hthm' : ∀ p ∈ setGroup (keys.getD idx "") rest assoc,
          ∀ ch ∈ p.2, ch.theme = p.1 := by
        intro p hp ch hch
        rcases mem_setGroup hp with rfl | hp'
        · exact hthm _ hmemassoc ch (List.mem_cons_of_mem _ hch)
        · exact hthm p hp' ch hch
      cases rest with
      | nil =>
        -- the popped theme is exhausted and removed from the key list
        have hklen : (keys.eraseIdx idx).length + 1 = keys.length :=
          List.length_eraseIdx_add_one hidx'
        have hfuel' : totalLen (setGroup (keys.getD idx "") [] assoc) +
            (keys.eraseIdx idx).length ≤ fuel := by omega
        have hkeys' : ∀ k ∈ keys.eraseIdx idx,
            ∃ c2 rest2, lookupGroup k (setGroup (keys.getD idx "") [] assoc) =
              some (c2 :: rest2) := by
          intro k hk
          have hkne : k ≠ keys.getD idx "" := by
            intro he
            exact getD_not_mem_eraseIdx hknd hidx' (he ▸ hk)
          rw [lookupGroup_setGroup_ne hkne]
          exact hkeys k (List.mem_of_mem_eraseIdx hk)
        have hknd' : (keys.eraseIdx idx).Nodup := List.Nodup.eraseIdx idx hknd
        have hidx2 : keys.eraseIdx idx ≠ [] →
            (if (keys.eraseIdx idx).length ≤ idx then 0 else idx) <
              (keys.eraseIdx idx).length := by
          intro hne'
          have hpos : 0 < (keys.eraseIdx idx).length := List.length_pos.mpr hne'
          by_cases hc : (keys.eraseIdx idx).length ≤ idx
          · rw [if_pos hc]; exact hpos
          · rw [if_neg hc]; omega
        obtain ⟨out, hout, htake⟩ :=
          ih _ _ _ limit (result ++ [c]) hfuel' hnd' hthm' hkeys' hknd' hidx2
        rw [List.length_append, List.length_singleton] at htake
        refine ⟨c :: out, ?_, ?_⟩
        · rw [hstep, if_pos (by simp), hout, List.append_assoc]
          rfl
        · have hmin : min keys.length (limit - result.length) =
              min (keys.eraseIdx idx).length (limit - (result.length + 1)) + 1 := by
            omega
          rw [hmin, rot_head hidx']
          simp only [List.map_cons, List.take_succ_cons]
          rw [rot_erase hidx'] at htake
          rw [hctheme, htake]
      | cons r0 rtl =>
        -- the popped theme still has chunks: move the index one step
        have hfuel' : totalLen (setGroup (keys.getD idx "") (r0 :: rtl) assoc) +
            keys.length ≤ fuel := by omega
        have hkeys' : ∀ k ∈ keys,
            ∃ c2 rest2, lookupGroup k (setGroup (keys.getD idx "") (r0 :: rtl) assoc) =
              some (c2 :: rest2) := by
          intro k hk
          by_cases hkt : k = keys.getD idx ""
          · subst hkt
            rw [lookupGroup_setGroup_self, hlook]
            exact ⟨r0, rtl, rfl⟩
          · rw [lookupGroup_setGroup_ne hkt]
            exact hkeys k hk
        have hidx2 : keys ≠ [] → (idx + 1) % keys.length < keys.length := by
          intro _
          exact Nat.mod_lt _ (by omega)
        obtain ⟨out, hout, htake⟩ :=
          ih _ _ _ limit (result ++ [c]) hfuel' hnd' hthm' hkeys' hknd hidx2
        rw [List.length_append, List.length_singleton] at htake
        refine ⟨c :: out, ?_, ?_⟩
        · rw [hstep, if_neg (by simp), hout, List.append_assoc]
          rfl
        · have hlen1 : 1 ≤ keys.length := by omega
          have hmin : min keys.length (limit - result.length) =
              min (keys.length - 1) (limit - result.length - 1) + 1 := by
            omega
          have hnm : min (keys.length - 1) (limit - result.length - 1) ≤
              min keys.length (limit - (result.length + 1)) := by
            omega
          have htl : (keys.drop (idx + 1) ++ keys.take idx).length = keys.length - 1 := by
            simp only [List.length_append, List.length_drop, List.length_take]
            omega
          rw [hmin, rot_head hidx']
          simp only [List.map_cons, List.take_succ_cons]
          rw [hctheme]
          congr 1
          have h1 : (List.map RAGChunk.theme out).take
              (min (keys.length - 1) (limit - result.length - 1)) =
              ((List.map RAGChunk.theme out).take
                (min keys.length (limit - (result.length + 1)))).take
                (min (keys.length - 1) (limit - result.length - 1)) := by
            rw [List.take_take, min_eq_left hnm]
          rw [h1, htake, rot_next hidx', List.take_take, min_eq_left]
          · rw [List.take_append_of_le_length]
            rw [htl]
            omega
          · exact hnm
    · have hrr : rrLoop (fuel + 1) assoc keys idx limit result = result := by
        simp only [rrLoop]
        rw [if_neg hcond]
      refine ⟨[], by rw [hrr]; simp, ?_⟩
      by_cases hk : keys = []
      · subst hk; simp
      · have hlim : ¬ result.length < limit := fun h => hcond ⟨h, hk⟩
        have h0 : limit - result.length = 0 := by omega
        rw [h0]
        simp

/-! ## The round-robin loop: membership, length, and drain -/

theorem rrLoop_subset :
    ∀ (fuel : Nat) (assoc : List (String × List RAGChunk)) (keys : List String)
      (idx limit : Nat) (result : List RAGChunk),
      (∀ p ∈ assoc, ∀ ch ∈ p.2, ch.theme = p.1) →
      ∀ x ∈ rrLoop fuel assoc keys idx limit result,
        x ∈ result ∨ x.theme ∈ keysOf assoc := by
  intro fuel
  induction fuel with
  | zero =>
    intro assoc keys idx limit result hthm x hx
    simp only [rrLoop] at hx
    exact Or.inl hx
  | succ fuel ih =>
    intro assoc keys idx limit result hthm x hx
    simp only [rrLoop] at hx
    split at hx
    · split at hx
      case _ c rest heq =>
        have hmemassoc := lookupGroup_mem heq
        have hthm' : ∀ p ∈ setGroup (keys.getD idx "") rest assoc,
            ∀ ch ∈ p.2, ch.theme = p.1 := by
          intro p hp ch hch
          rcases mem_setGroup hp with rfl | hp'
          · exact hthm _ hmemassoc ch (List.mem_cons_of_mem _ hch)
          · exact hthm p hp' ch hch
        have hkeq : keysOf (setGroup (keys.getD idx "") rest assoc) = keysOf assoc :=
          keysOf_setGroup _ _ _
        have hc : x ∈ result ++ [c] → x ∈ result ∨ x.theme ∈ keysOf assoc := by
          intro hxr
          rcases List.mem_append.mp hxr with hxr | hxr
          · exact Or.inl hxr
          · simp only [List.mem_singleton] at hxr
            subst hxr
            refine Or.inr ?_
            rw [hthm _ hmemassoc x (List.mem_cons_self _ _)]
            exact List.mem_map_of_mem Prod.fst hmemassoc
        split at hx
        · rcases ih _ _ _ _ _ hthm' x hx with h | h
          · exact hc h
          · exact Or.inr (hkeq ▸ h)
        · rcases ih _ _ _ _ _ hthm' x hx with h | h
          · exact hc h
          · exact Or.inr (hkeq ▸ h)
      case _ heq =>
        exact ih _ _ _ _ _ hthm x hx
    · exact Or.inl hx

theorem rrLoop_length_le :
    ∀ (fuel : Nat) (assoc : List (String × List RAGChunk)) (keys : List String)
      (idx limit : Nat) (result : List RAGChunk),
      result.length ≤ limit →
      (rrLoop fuel assoc keys idx limit result).length ≤ limit := by
  intro fuel
  induction fuel with
  | zero =>
    intro assoc keys idx limit result h
    simpa only [rrLoop] using h
  | succ fuel ih =>
    intro assoc keys idx limit result h
    simp only [rrLoop]
    split
    case isTrue hcond =>
      have hlt : result.length < limit := hcond.1
      split
      case _ c rest heq =>
        split
        · exact ih _ _ _ _ _
            (by simp only [List.length_append, List.length_singleton]; omega)
        · exact ih _ _ _ _ _
            (by simp only [List.length_append, List.length_singleton]; omega)
      case _ heq =>
        exact ih _ _ _ _ _ h
    case isFalse hcond =>
      exact h

theorem remChunks_append (assoc : List (String × List RAGChunk)) (k1 k2 : List String) :
    remChunks assoc (k1 ++ k2) = remChunks assoc k1 ++ remChunks assoc k2 := by
  unfold remChunks
  rw [List.map_append, List.flatten_append]

theorem remChunks_cons (assoc : List (String × List RAGChunk)) (k : String)
    (ks : List String) :
    remChunks assoc (k :: ks) = (lookupGroup k assoc).getD [] ++ remChunks assoc ks := by
  unfold remChunks
  rw [List.map_cons, List.flatten_cons]

theorem remChunks_congr {assoc assoc2 : List (String × List RAGChunk)}
    {keys : List String}
    (h : ∀ k ∈ keys, lookupGroup k assoc2 = lookupGroup k assoc) :
    remChunks assoc2 keys = remChunks assoc keys := by
  unfold remChunks
  congr 1
  exact List.map_congr_left (fun k hk => by rw [h k hk])

theorem remChunks_split (assoc2 : List (String × List RAGChunk)) {keys : List String}
    {idx : Nat} (h : idx < keys.length) :
    remChunks assoc2 keys = remChunks assoc2 (keys.take idx) ++
      ((lookupGroup (keys.getD idx "") assoc2).getD [] ++
        remChunks assoc2 (keys.drop (idx + 1))) := by
  conv_lhs =>
    rw [show keys = keys.take idx ++ keys.getD idx "" :: keys.drop (idx + 1) by
      rw [List.getD_eq_getElem _ _ h, ← List.drop_eq_getElem_cons h,
        List.take_append_drop]]
  rw [remChunks_append, remChunks_cons]

theorem perm_shuffle (res A B : List RAGChunk) (c : RAGChunk) :
    List.Perm ((res ++ [c]) ++ (A ++ B)) (res ++ (A ++ (c :: B))) := by
  have h1 : (res ++ [c]) ++ (A ++ B) = res ++ (c :: (A ++ B)) := by
    simp [List.append_assoc]
  rw [h1]
  exact List.Perm.append_left res List.perm_middle.symm

/-- When the limit is large enough, the round-robin loop drains every group of
every active theme key: the output is the input multiset. -/
theorem rrLoop_drain :
    ∀ (fuel : Nat) (assoc : List (String × List RAGChunk)) (keys : List String)
      (idx limit : Nat) (result : List RAGChunk),
      totalLen assoc + keys.length ≤ fuel →
      (keysOf assoc).Nodup →
      (∀ k ∈ keys, ∃ c rest, lookupGroup k assoc = some (c :: rest)) →
      keys.Nodup →
      (keys ≠ [] → idx < keys.length) →
      result.length + (remChunks assoc keys).length ≤ limit →
      List.Perm (rrLoop fuel assoc keys idx limit result)
        (result ++ remChunks assoc keys) := by
  intro fuel
  induction fuel with
  | zero =>
    intro assoc keys idx limit result hfuel hnd hkeys hknd hidx hall
    have hkeys0 : keys = [] := List.length_eq_zero.mp (by omega)
    subst hkeys0
    simp only [rrLoop, remChunks, List.map_nil, List.flatten_nil, List.append_nil]
    exact List.Perm.refl _
  | succ fuel ih =>
    intro assoc keys idx limit result hfuel hnd hkeys hknd hidx hall
    by_cases hcond : result.length < limit ∧ keys ≠ []
    · obtain ⟨hlt, hne⟩ := hcond
      have hidx' : idx < keys.length := hidx hne
      have hmem : keys.getD idx "" ∈ keys := by
        rw [List.getD_eq_getElem _ _ hidx']
        exact List.getElem_mem _
      obtain ⟨c, rest, hlook⟩ := hkeys _ hmem
      have hpop := totalLen_setGroup_pop hnd hlook
      have hstep : rrLoop (fuel + 1) assoc keys idx limit result =
          if rest.isEmpty then
            rrLoop fuel (setGroup (keys.getD idx "") rest assoc) (keys.eraseIdx idx)
              (if (keys.eraseIdx idx).length ≤ idx then 0 else idx) limit (result ++ [c])
          else
            rrLoop fuel (setGroup (keys.getD idx "") rest assoc) keys
              ((idx + 1) % keys.length) limit (result ++ [c]) := by
        simp only [rrLoop]
        rw [if_pos ⟨hlt, hne⟩, hlook]
      have hnd' : (keysOf (setGroup (keys.getD idx "") rest assoc)).Nodup := by
        rw [keysOf_setGroup]; exact hnd
      have hksplit : keys = keys.take idx ++ keys.getD idx "" :: keys.drop (idx + 1) := by
        rw [List.getD_eq_getElem _ _ hidx', ← List.drop_eq_getElem_cons hidx',
          List.take_append_drop]
      have hndsplit : (keys.take idx ++ keys.getD idx "" :: keys.drop (idx + 1)).Nodup := by
        rw [← hksplit]; exact hknd
      rw [List.nodup_append] at hndsplit
      obtain ⟨hndA, hndtB, hdisj⟩ := hndsplit
      have htnotB : keys.getD idx "" ∉ keys.drop (idx + 1) := (List.nodup_cons.mp hndtB).1
      have htnotA : keys.getD idx "" ∉ keys.take idx := by
        intro hA
        exact (hdisj hA) (List.mem_cons_self _ _)
      have hrem : remChunks assoc keys =
          remChunks assoc (keys.take idx) ++
            (c :: (rest ++ remChunks assoc (keys.drop (idx + 1)))) := by
        rw [remChunks_split assoc hidx', hlook]
        simp [List.cons_append]
      cases rest with
      | nil =>
        have hklen : (keys.eraseIdx idx).length + 1 = keys.length :=
          List.length_eraseIdx_add_one hidx'
        have hfuel' : totalLen (setGroup (keys.getD idx "") [] assoc) +
            (keys.eraseIdx idx).length ≤ fuel := by omega
        have hkeys' : ∀ k ∈ keys.eraseIdx idx,
            ∃ c2 rest2, lookupGroup k (setGroup (keys.getD idx "") [] assoc) =
              some (c2 :: rest2) := by
          intro k hk
          have hkne : k ≠ keys.getD idx "" := by
            intro he
            exact getD_not_mem_eraseIdx hknd hidx' (he ▸ hk)
          rw [lookupGroup_setGroup_ne hkne]
          exact hkeys k (List.mem_of_mem_eraseIdx hk)
        have hknd' : (keys.eraseIdx idx).Nodup := List.Nodup.eraseIdx idx hknd
        have hidx2 : keys.eraseIdx idx ≠ [] →
            (if (keys.eraseIdx idx).length ≤ idx then 0 else idx) <
              (keys.eraseIdx idx).length := by
          intro hne'
          have hpos : 0 < (keys.eraseIdx idx).length := List.length_pos.mpr hne'
          by_cases hc : (keys.eraseIdx idx).length ≤ idx
          · rw [if_pos hc]; exact hpos
          · rw [if_neg hc]; omega
        have hlookeq : ∀ k ∈ keys.eraseIdx idx,
            lookupGroup k (setGroup (keys.getD idx "") [] assoc) = lookupGroup k assoc := by
          intro k hk
          apply lookupGroup_setGroup_ne
          intro he
          exact getD_not_mem_eraseIdx hknd hidx' (he ▸ hk)
        have herase : keys.eraseIdx idx = keys.take idx ++ keys.drop (idx + 1) :=
          List.eraseIdx_eq_take_drop_succ _ _
        have hrem' : remChunks (setGroup (keys.getD idx "") [] assoc) (keys.eraseIdx idx)
            = remChunks assoc (keys.take idx) ++ remChunks assoc (keys.drop (idx + 1)) := by
          rw [remChunks_congr hlookeq, herase, remChunks_append]
        have hall' : (result ++ [c]).length +
            (remChunks (setGroup (keys.getD idx "") [] assoc) (keys.eraseIdx idx)).length
              ≤ limit := by
          rw [hrem']
          rw [hrem] at hall
          simp only [List.length_append, List.length_cons, List.length_singleton,
            List.length_nil, List.nil_append] at hall ⊢
          omega
        have hperm := ih _ _ _ limit (result ++ [c]) hfuel' hnd' hkeys' hknd' hidx2 hall'
        rw [hstep, if_pos (by simp)]
        refine List.Perm.trans hperm ?_
        rw [hrem', hrem]
        simp only [List.nil_append]
        exact perm_shuffle result _ _ c
      | cons r0 rtl =>
        have hfuel' : totalLen (setGroup (keys.getD idx "") (r0 :: rtl) assoc) +
            keys.length ≤ fuel := by omega
        have hkeys' : ∀ k ∈ keys,
            ∃ c2 rest2, lookupGroup k (setGroup (keys.getD idx "") (r0 :: rtl) assoc) =
              some (c2 :: rest2) := by
          intro k hk
          by_cases hkt : k = keys.getD idx ""
          · subst hkt
            rw [lookupGroup_setGroup_self, hlook]
            exact ⟨r0, rtl, rfl⟩
          · rw [lookupGroup_setGroup_ne hkt]
            exact hkeys k hk
        have hidx2 : keys ≠ [] → (idx + 1) % keys.length < keys.length := by
          intro _
          exact Nat.mod_lt _ (by omega)
        have hremA : remChunks (setGroup (keys.getD idx "") (r0 :: rtl) assoc)
            (keys.take idx) = remChunks assoc (keys.take idx) := by
          apply remChunks_congr
          intro k hk
          apply lookupGroup_setGroup_ne
          intro he
          exact htnotA (he ▸ hk)
        have hremB : remChunks (setGroup (keys.getD idx "") (r0 :: rtl) assoc)
            (keys.drop (idx + 1)) = remChunks assoc (keys.drop (idx + 1)) := by
          apply remChunks_congr
          intro k hk
          apply lookupGroup_setGroup_ne
          intro he
          exact htnotB (he ▸ hk)
        have hrem2 : remChunks (setGroup (keys.getD idx "") (r0 :: rtl) assoc) keys =
            remChunks assoc (keys.take idx) ++
              ((r0 :: rtl) ++ remChunks assoc (keys.drop (idx + 1))) := by
          rw [remChunks_split (setGroup (keys.getD idx "") (r0 :: rtl) assoc) hidx',
            lookupGroup_setGroup_self, hlook, hremA, hremB]
          simp
        have hall' : (result ++ [c]).length +
            (remChunks (setGroup (keys.getD idx "") (r0 :: rtl) assoc) keys).length
              ≤ limit := by
          rw [hrem2]
          rw [hrem] at hall
          simp only [List.length_append, List.length_cons, List.length_singleton,
            List.length_nil, List.nil_append] at hall ⊢
          omega
        have hperm := ih _ _ _ limit (result ++ [c]) hfuel' hnd' hkeys' hknd hidx2 hall'
        rw [hstep, if_neg (by simp)]
        refine List.Perm.trans hperm ?_
        rw [hrem2, hrem]
        exact perm_shuffle result _ _ c
    · have hrr : rrLoop (fuel + 1) assoc keys idx limit result = result := by
        simp only [rrLoop]
        rw [if_neg hcond]
      rw [hrr]
      by_cases hk : keys = []
      · subst hk
        simp only [remChunks, List.map_nil, List.flatten_nil, List.append_nil]
        exact List.Perm.refl _
      · have hlim : ¬ result.length < limit := fun h => hcond ⟨h, hk⟩
        have h0 : (remChunks assoc keys).length = 0 := by omega
        rw [List.length_eq_zero.mp h0]
        simp only [List.append_nil]
        exact List.Perm.refl _

/-! ## Corollaries about diversifyByTheme -/

theorem hkeys_init (chunks : List RAGChunk) :
    ∀ k ∈ keysOf (sortedGroups chunks),
      ∃ c rest, lookupGroup k (sortedGroups chunks) = some (c :: rest) := by
  intro k hk
  obtain ⟨g, hg⟩ := lookupGroup_isSome_of_mem hk
  have hmem := lookupGroup_mem hg
  have hne := (goodGroups_sortedGroups chunks).2.1 _ hmem
  cases g with
  | nil => exact absurd rfl hne
  | cons c rest => exact ⟨c, rest, hg⟩

theorem diversify_fuel_ok (chunks : List RAGChunk) :
    totalLen (sortedGroups chunks) + (keysOf (sortedGroups chunks)).length ≤
      chunks.length + (sortedGroups chunks).length := by
  rw [totalLen_sortedGroups]
  unfold keysOf
  rw [List.length_map]

theorem diversify_eq_rrLoop (chunks : List RAGChunk) (limit : Nat) :
    diversifyByTheme chunks limit =
      rrLoop (chunks.length + (sortedGroups chunks).length) (sortedGroups chunks)
        (keysOf (sortedGroups chunks)) 0 limit [] := rfl

/-- The first `min (number of themes) limit` diversified chunks carry the
distinct themes in first-seen order. -/
theorem diversify_firstSeen (chunks : List RAGChunk) (limit : Nat) :
    ((diversifyByTheme chunks limit).map RAGChunk.theme).take
        (min (keysOf (groupByTheme chunks)).length limit) =
      (keysOf (groupByTheme chunks)).take
        (min (keysOf (groupByTheme chunks)).length limit) := by
  have hgood := goodGroups_sortedGroups chunks
  obtain ⟨out, hout, htake⟩ :=
    rrLoop_spec (chunks.length + (sortedGroups chunks).length) (sortedGroups chunks)
      (keysOf (sortedGroups chunks)) 0 limit [] (diversify_fuel_ok chunks) hgood.1
      hgood.2.2 (hkeys_init chunks) hgood.1
      (fun hne => List.length_pos.mpr hne)
  rw [List.nil_append] at hout
  rw [diversify_eq_rrLoop, hout]
  rw [List.rotate_zero, List.length_nil, Nat.sub_zero, keysOf_sortedGroups] at htake
  exact htake

theorem diversify_theme_lower_bound (chunks : List RAGChunk) (limit : Nat) :
    min (distinctThemes chunks) limit ≤ distinctThemes (diversifyByTheme chunks limit) := by
  have hfs := diversify_firstSeen chunks limit
  have hK := length_keysOf_groupByTheme chunks
  have hnd := (goodGroups_groupByTheme chunks).1
  have hndtake : ((keysOf (groupByTheme chunks)).take
      (min (keysOf (groupByTheme chunks)).length limit)).Nodup :=
    hnd.sublist (List.take_sublist _ _)
  have hlen_take : ((keysOf (groupByTheme chunks)).take
      (min (keysOf (groupByTheme chunks)).length limit)).length =
      min (keysOf (groupByTheme chunks)).length limit := by
    rw [List.length_take]
    omega
  have hsub : ((keysOf (groupByTheme chunks)).take
      (min (keysOf (groupByTheme chunks)).length limit)).toFinset ⊆
      ((diversifyByTheme chunks limit).map RAGChunk.theme).toFinset := by
    intro t ht
    rw [List.mem_toFinset] at ht ⊢
    rw [← hfs] at ht
    exact List.take_subset _ _ ht
  have hcard := Finset.card_le_card hsub
  rw [List.toFinset_card_of_nodup hndtake, hlen_take] at hcard
  unfold distinctThemes at hK ⊢
  omega

theorem naive_take_distinct_le (chunks : List RAGChunk) (limit : Nat) :
    distinctThemes (chunks.take limit) ≤ min (distinctThemes chunks) limit := by
  refine le_min ?_ ?_
  · apply Finset.card_le_card
    intro t ht
    rw [List.mem_toFinset] at ht ⊢
    exact List.map_subset _ (List.take_subset _ _) ht
  · have h1 := List.toFinset_card_le ((chunks.take limit).map RAGChunk.theme)
    have h2 : ((chunks.take limit).map RAGChunk.theme).length ≤ limit := by
      rw [List.length_map, List.length_take]
      omega
    unfold distinctThemes
    omega

theorem remChunks_keysOf :
    ∀ {assoc : List (String × List RAGChunk)}, (keysOf assoc).Nodup →
      remChunks assoc (keysOf assoc) = joinGroups assoc := by
  intro assoc
  induction assoc with
  | nil => intro _; rfl
  | cons p tl ih =>
    intro hnd
    have hnd' : (keysOf tl).Nodup := by
      simp only [keysOf, List.map_cons, List.nodup_cons] at hnd
      exact hnd.2
    have hnotmem : p.1 ∉ keysOf tl := by
      simp only [keysOf, List.map_cons, List.nodup_cons] at hnd
      exact hnd.1
    show remChunks (p :: tl) (p.1 :: keysOf tl) = joinGroups (p :: tl)
    rw [remChunks_cons]
    have hhead : lookupGroup p.1 (p :: tl) = some p.2 := by
      unfold lookupGroup
      rw [List.find?_cons_of_pos _ (by simp)]
      rfl
    have hcongr : remChunks (p :: tl) (keysOf tl) = remChunks tl (keysOf tl) := by
      apply remChunks_congr
      intro k hk
      have hkne : p.1 ≠ k := fun he => hnotmem (he ▸ hk)
      unfold lookupGroup
      rw [List.find?_cons_of_neg _ (by simp [hkne])]
    rw [hhead, Option.getD_some, hcongr, ih hnd']
    rfl

theorem diversify_perm_of_le (chunks : List RAGChunk) (limit : Nat)
    (h : chunks.length ≤ limit) :
    List.Perm (diversifyByTheme chunks limit) chunks := by
  have hgood := goodGroups_sortedGroups chunks
  have hjoin := joinGroups_sortedGroups chunks
  have hrem : remChunks (sortedGroups chunks) (keysOf (sortedGroups chunks)) =
      joinGroups (sortedGroups chunks) := remChunks_keysOf hgood.1
  have hall : ([] : List RAGChunk).length +
      (remChunks (sortedGroups chunks) (keysOf (sortedGroups chunks))).length ≤ limit := by
    rw [hrem]
    have := hjoin.length_eq
    simp only [List.length_nil]
    omega
  have hdrain :=
    rrLoop_drain (chunks.length + (sortedGroups chunks).length) (sortedGroups chunks)
      (keysOf (sortedGroups chunks)) 0 limit [] (diversify_fuel_ok chunks) hgood.1
      (hkeys_init chunks) hgood.1 (fun hne => List.length_pos.mpr hne) hall
  rw [List.nil_append, hrem] at hdrain
  rw [diversify_eq_rrLoop]
  exact hdrain.trans hjoin

theorem diversify_length_le (chunks : List RAGChunk) (limit : Nat) :
    (diversifyByTheme chunks limit).length ≤ limit := by
  rw [diversify_eq_rrLoop]
  exact rrLoop_length_le _ _ _ _ _ _ (by simp)

theorem diversify_themes_sub (chunks : List RAGChunk) (limit : Nat) :
    ∀ x ∈ diversifyByTheme chunks limit, x.theme ∈ chunks.map RAGChunk.theme := by
  intro x hx
  rw [diversify_eq_rrLoop] at hx
  have hgood := goodGroups_sortedGroups chunks
  rcases rrLoop_subset _ _ _ _ _ _ hgood.2.2 x hx with h | h
  · simp at h
  · rw [keysOf_sortedGroups] at h
    exact (mem_keysOf_groupByTheme chunks _).mp h

/-! ## Lemmas about the guardrails -/

theorem catchGuard_error {r : Except JsError Unit} {e : JsError}
    (h : catchGuard r = .error e) : ∃ m, e = .guardrail m := by
  cases r with
  | ok u => simp [catchGuard] at h
  | error e0 =>
    cases e0 with
    | guardrail m =>
      simp only [catchGuard, Except.error.injEq] at h
      exact ⟨m, h.symm⟩
    | generationErr m => simp [catchGuard] at h
    | genericErr m => simp [catchGuard] at h

theorem catchGuard_nonguard {e : JsError} (h : ∀ m, e ≠ .guardrail m) :
    catchGuard (.error e) = .ok () := by
  cases e with
  | guardrail m => exact absurd rfl (h m)
  | generationErr m => rfl
  | genericErr m => rfl

theorem checkProhibited_error {pfx text : String} {e : JsError}
    (h : checkProhibited pfx text = .error e) : ∃ m, e = .guardrail m := by
  unfold checkProhibited at h
  cases hf : PROHIBITED_PATTERNS.find? (fun pd => pd.1 text) with
  | none => rw [hf] at h; simp at h
  | some pd =>
    rw [hf] at h
    simp only [Except.error.injEq] at h
    exact ⟨pfx ++ pd.2, h.symm⟩

theorem checkProhibited_ok {pfx text : String}
    (h : checkProhibited pfx text = .ok ()) :
    ∀ pd ∈ PROHIBITED_PATTERNS, pd.1 text = false := by
  intro pd hpd
  unfold checkProhibited at h
  cases hf : PROHIBITED_PATTERNS.find? (fun pd => pd.1 text) with
  | none =>
    have := List.find?_eq_none.mp hf pd hpd
    simpa using this
  | some pd2 => rw [hf] at h; simp at h

theorem checkProhibited_ok_of_none {pfx text : String}
    (h : ∀ pd ∈ PROHIBITED_PATTERNS, pd.1 text = false) :
    checkProhibited pfx text = .ok () := by
  unfold checkProhibited
  rw [List.find?_eq_none.mpr (fun pd hpd => by simp [h pd hpd])]

theorem checkProhibited_first {pfx text : String}
    (h : ∀ pd ∈ PROHIBITED_PATTERNS, pd.1 text = true) :
    checkProhibited pfx text = .error (.guardrail (pfx ++ "Financial figures")) := by
  have h1 : testP1 text = true := by
    have := h (testP1, "Financial figures") (by simp [PROHIBITED_PATTERNS])
    simpa using this
  unfold checkProhibited PROHIBITED_PATTERNS
  rw [List.find?_cons_of_pos _ (by simpa using h1)]

theorem validateExtraInstruction_error {instr : Option String}
    {o : Except JsError String} {e : JsError}
    (h : validateExtraInstruction instr o = .error e) : ∃ m, e = .guardrail m := by
  cases instr with
  | none => simp [validateExtraInstruction] at h
  | some s =>
    simp only [validateExtraInstruction] at h
    by_cases hlen : (jsTrim s).data.length = 0
    · rw [if_pos hlen] at h
      simp at h
    · rw [if_neg hlen] at h
      exact catchGuard_error h

theorem validatePlan_error {plan : Json} {o : Except JsError String} {e : JsError}
    (h : validatePlan plan o = .error e) : ∃ m, e = .guardrail m := by
  unfold validatePlan at h
  split at h
  case _ e2 heq =>
    obtain ⟨m, hm⟩ := checkProhibited_error heq
    injection h with h2
    exact ⟨m, h2 ▸ hm⟩
  case _ u heq =>
    exact catchGuard_error h

theorem validateScript_error {script : String} {o : Except JsError String} {e : JsError}
    (h : validateScript script o = .error e) : ∃ m, e = .guardrail m := by
  unfold validateScript at h
  split at h
  case _ e2 heq =>
    obtain ⟨m, hm⟩ := checkProhibited_error heq
    injection h with h2
    exact ⟨m, h2 ▸ hm⟩
  case _ u heq =>
    exact catchGuard_error h

theorem validateScript_ok_patterns {script : String} {o : Except JsError String}
    (h : validateScript script o = .ok ()) :
    ∀ pd ∈ PROHIBITED_PATTERNS, pd.1 script = false := by
  unfold validateScript at h
  split at h
  case _ e2 heq => simp at h
  case _ u heq =>
    cases u
    exact checkProhibited_ok heq

theorem validatePlan_patterns_blocked {plan : Json} {e : JsError}
    (o : Except JsError String)
    (h : checkProhibited "Plan contains prohibited content: " (stringifyJson plan) =
      .error e) :
    validatePlan plan o = .error e := by
  unfold validatePlan
  rw [h]

theorem validateScript_patterns_blocked {script : String} {e : JsError}
    (o : Except JsError String)
    (h : checkProhibited "Script contains prohibited content: " script = .error e) :
    validateScript script o = .error e := by
  unfold validateScript
  rw [h]

/-! ## Lemmas about the orchestrator -/

theorem applyOps_append (s : GenState) (l1 l2 : List DbOp) :
    applyOps s (l1 ++ l2) = applyOps (applyOps s l1) l2 :=
  List.foldl_append _ _ _ _

theorem applyOps_retry_count {ops : List DbOp}
    (h : ∀ op ∈ ops, op ≠ DbOp.retryUpdate) (s : GenState) :
    (applyOps s ops).retry_count = s.retry_count := by
  induction ops generalizing s with
  | nil => rfl
  | cons op tl ih =>
    have h1 : (applyOp s op).retry_count = s.retry_count := by
      cases op
      case retryUpdate => exact absurd rfl (h _ (List.mem_cons_self _ _))
      all_goals rfl
    have h2 : applyOps s (op :: tl) = applyOps (applyOp s op) tl := rfl
    rw [h2, ih (fun o ho => h o (List.mem_cons_of_mem _ ho)), h1]

theorem errPhaseOp_ne_retry {op : DbOp} (h : errPhaseOp op = true) :
    op ≠ DbOp.retryUpdate := by
  intro he
  subst he
  simp [errPhaseOp] at h

theorem errPhaseOp_opStatus {op : DbOp} (h : errPhaseOp op = true) :
    opStatus op = some .processing ∨ opStatus op = none := by
  cases op with
  | statusUpdate st msg =>
    cases st with
    | processing => exact Or.inl rfl
    | queued => simp [errPhaseOp] at h
    | rendering => simp [errPhaseOp] at h
    | completed => simp [errPhaseOp] at h
    | failed => simp [errPhaseOp] at h
  | setRagInfo q i => exact Or.inr rfl
  | setPlan pl => exact Or.inr rfl
  | setScript sc => exact Or.inr rfl
  | retryUpdate => simp [errPhaseOp] at h
  | failUpdate m => simp [errPhaseOp] at h
  | completeUpdate => simp [errPhaseOp] at h

theorem errPhaseOp_clean {op : DbOp} (h : errPhaseOp op = true) :
    op ≠ DbOp.retryUpdate ∧ opStatus op ≠ some .completed ∧
      (∀ m, op ≠ DbOp.statusUpdate .rendering m) := by
  refine ⟨errPhaseOp_ne_retry h, ?_, ?_⟩
  · rcases errPhaseOp_opStatus h with h2 | h2 <;> simp [h2]
  · intro m he
    subst he
    simp [errPhaseOp] at h

theorem opsValidate_err : ∀ op ∈ opsValidate, errPhaseOp op = true := by
  simp [opsValidate, errPhaseOp]

theorem opsRetrieve_err : ∀ op ∈ opsRetrieve, errPhaseOp op = true := by
  simp [opsRetrieve, opsValidate, errPhaseOp]

theorem opsPlan_err (context : RAGContext) :
    ∀ op ∈ opsPlan context, errPhaseOp op = true := by
  simp [opsPlan, opsRetrieve, opsValidate, errPhaseOp]

theorem opsScript_err (context : RAGContext) (plan : Json) :
    ∀ op ∈ opsScript context plan, errPhaseOp op = true := by
  simp [opsScript, opsPlan, opsRetrieve, opsValidate, errPhaseOp]

/-- Structure of the processing-phase trace: on success it ends with the
script store followed by the `rendering` hand-off; on failure every recorded
operation is a progress update or partial-result store; no operation ever
re-queues the run or marks it completed by itself. -/
theorem processPhase_shape (p : UserProfile) (f : GenerationFormat)
    (c : GenerationCustomization) (env : Env) :
    ((processPhase p f c env).2 = .ok () →
      ∃ context plan sc, (processPhase p f c env).1 =
          opsScript context plan ++
            [DbOp.setScript sc,
             DbOp.statusUpdate .rendering (some "Preparing to render media...")] ∧
        generateScript env.scriptChat = .ok sc ∧
        validateScript sc env.scriptValChat = .ok ()) ∧
    (∀ e, (processPhase p f c env).2 = .error e →
      ∀ op ∈ (processPhase p f c env).1, errPhaseOp op = true) ∧
    (∀ op ∈ (processPhase p f c env).1,
      op ≠ DbOp.retryUpdate ∧ opStatus op ≠ some .completed) := by
  unfold processPhase
  split
  next e1 heq =>
    refine ⟨(by intro hok; simp at hok),
      (by intro e he op hop; exact opsValidate_err op hop), ?_⟩
    intro op hop
    exact ⟨(errPhaseOp_clean (opsValidate_err op hop)).1,
      (errPhaseOp_clean (opsValidate_err op hop)).2.1⟩
  next u1 heq =>
    split
    next e2 heq2 =>
      refine ⟨(by intro hok; simp at hok),
        (by intro e he op hop; exact opsRetrieve_err op hop), ?_⟩
      intro op hop
      exact ⟨(errPhaseOp_clean (opsRetrieve_err op hop)).1,
        (errPhaseOp_clean (opsRetrieve_err op hop)).2.1⟩
    next ctx heq2 =>
      split
      next e3 heq3 =>
        refine ⟨(by intro hok; simp at hok),
          (by intro e he op hop; exact opsPlan_err ctx op hop), ?_⟩
        intro op hop
        exact ⟨(errPhaseOp_clean (opsPlan_err ctx op hop)).1,
          (errPhaseOp_clean (opsPlan_err ctx op hop)).2.1⟩
      next plan heq3 =>
        split
        next e4 heq4 =>
          refine ⟨(by intro hok; simp at hok),
            (by intro e he op hop; exact opsPlan_err ctx op hop), ?_⟩
          intro op hop
          exact ⟨(errPhaseOp_clean (opsPlan_err ctx op hop)).1,
            (errPhaseOp_clean (opsPlan_err ctx op hop)).2.1⟩
        next u4 heq4 =>
          split
          next e5 heq5 =>
            refine ⟨(by intro hok; simp at hok),
              (by intro e he op hop; exact opsScript_err ctx plan op hop), ?_⟩
            intro op hop
            exact ⟨(errPhaseOp_clean (opsScript_err ctx plan op hop)).1,
              (errPhaseOp_clean (opsScript_err ctx plan op hop)).2.1⟩
          next script heq5 =>
            split
            next e6 heq6 =>
              refine ⟨(by intro hok; simp at hok),
                (by intro e he op hop; exact opsScript_err ctx plan op hop), ?_⟩
              intro op hop
              exact ⟨(errPhaseOp_clean (opsScript_err ctx plan op hop)).1,
                (errPhaseOp_clean (opsScript_err ctx plan op hop)).2.1⟩
            next u6 heq6 =>
              refine ⟨?_, (by intro e he; simp at he), ?_⟩
              · intro _
                exact ⟨ctx, plan, script, rfl, heq5, heq6⟩
              · intro op hop
                rcases List.mem_append.mp hop with hop | hop
                · exact ⟨(errPhaseOp_clean (opsScript_err ctx plan op hop)).1,
                    (errPhaseOp_clean (opsScript_err ctx plan op hop)).2.1⟩
                · simp only [List.mem_cons, List.mem_singleton, List.not_mem_nil,
                    or_false] at hop
                  rcases hop with rfl | rfl
                  · exact ⟨(by simp), (by simp [opStatus])⟩
                  · exact ⟨(by simp), (by simp [opStatus])⟩

theorem generateTakeaway_of_ok (p : UserProfile) (f : GenerationFormat)
    (c : GenerationCustomization) (env : Env) (rc : Nat)
    (h : (processPhase p f c env).2 = .ok ()) :
    generateTakeaway p f c env rc = ((processPhase p f c env).1, .ok ()) := by
  unfold generateTakeaway
  rw [h]

theorem generateTakeaway_of_retry (p : UserProfile) (f : GenerationFormat)
    (c : GenerationCustomization) (env : Env) (rc : Nat) (e : JsError)
    (h : (processPhase p f c env).2 = .error e)
    (hr : isRetriableError e = true) (hc : rc < MAX_RETRIES) :
    generateTakeaway p f c env rc =
      ((processPhase p f c env).1 ++ [DbOp.retryUpdate],
       .error (.generationErr "Generation failed, retrying...")) := by
  unfold generateTakeaway
  rw [h]
  exact if_pos ⟨hr, hc⟩

theorem generateTakeaway_of_fail (p : UserProfile) (f : GenerationFormat)
    (c : GenerationCustomization) (env : Env) (rc : Nat) (e : JsError)
    (h : (processPhase p f c env).2 = .error e)
    (hc : ¬(isRetriableError e = true ∧ rc < MAX_RETRIES)) :
    generateTakeaway p f c env rc =
      ((processPhase p f c env).1 ++ [DbOp.failUpdate e.message], .error e) := by
  unfold generateTakeaway
  rw [h]
  exact if_neg hc

theorem attempt_spec (p : UserProfile) (f : GenerationFormat)
    (c : GenerationCustomization) (env : Env) (s : GenState) (e : JsError)
    (h : (processPhase p f c env).2 = .error e) :
    ((isRetriableError e = true ∧ s.retry_count < MAX_RETRIES) →
      (attempt p f c env s).1.status = .queued ∧
      (attempt p f c env s).1.retry_count = s.retry_count + 1 ∧
      (attempt p f c env s).2 = .error (.generationErr "Generation failed, retrying...")) ∧
    (¬(isRetriableError e = true ∧ s.retry_count < MAX_RETRIES) →
      (attempt p f c env s).1.status = .failed ∧
      (attempt p f c env s).1.retry_count = s.retry_count ∧
      (attempt p f c env s).2 = .error e) := by
  have hops := (processPhase_shape p f c env).2.1 e h
  have hretpres : (applyOps s (processPhase p f c env).1).retry_count = s.retry_count :=
    applyOps_retry_count (fun op hop => errPhaseOp_ne_retry (hops op hop)) s
  constructor
  · rintro ⟨hr, hc⟩
    have heq := generateTakeaway_of_retry p f c env s.retry_count e h hr hc
    unfold attempt
    rw [heq]
    dsimp only
    rw [applyOps_append]
    refine ⟨rfl, ?_, rfl⟩
    rw [show (applyOps (applyOps s (processPhase p f c env).1)
        [DbOp.retryUpdate]).retry_count =
        (applyOps s (processPhase p f c env).1).retry_count + 1 from rfl, hretpres]
  · intro hc
    have heq := generateTakeaway_of_fail p f c env s.retry_count e h hc
    unfold attempt
    rw [heq]
    dsimp only
    rw [applyOps_append]
    refine ⟨rfl, ?_, rfl⟩
    rw [show (applyOps (applyOps s (processPhase p f c env).1)
        [DbOp.failUpdate e.message]).retry_count =
        (applyOps s (processPhase p f c env).1).retry_count from rfl, hretpres]

theorem attempt_rc_le (p : UserProfile) (f : GenerationFormat)
    (c : GenerationCustomization) (env : Env) (s : GenState)
    (h : s.retry_count ≤ MAX_RETRIES) :
    (attempt p f c env s).1.retry_count ≤ MAX_RETRIES := by
  cases hr : (processPhase p f c env).2 with
  | ok u =>
    cases u
    unfold attempt
    rw [generateTakeaway_of_ok p f c env s.retry_count hr]
    dsimp only
    rw [applyOps_retry_count
      (fun op hop => ((processPhase_shape p f c env).2.2 op hop).1) s]
    exact h
  | error e =>
    rcases Classical.em (isRetriableError e = true ∧ s.retry_count < MAX_RETRIES) with hc | hc
    · have h2 := ((attempt_spec p f c env s e hr).1 hc).2.1
      have h3 := hc.2
      omega
    · have h2 := ((attempt_spec p f c env s e hr).2 hc).2.1
      omega

theorem iterate_rc (p : UserProfile) (f : GenerationFormat)
    (c : GenerationCustomization) (env : Env) (e : JsError)
    (h : (processPhase p f c env).2 = .error e) (hr : isRetriableError e = true) :
    ∀ n, n ≤ 3 → (iterateAttempts p f c env n initialGenState).retry_count = n ∧
      (0 < n → (iterateAttempts p f c env n initialGenState).status = .queued) := by
  intro n
  induction n with
  | zero =>
    intro _
    exact ⟨rfl, fun hc => absurd hc (by omega)⟩
  | succ n ih =>
    intro hle
    have hn := ih (by omega)
    have hlt : (iterateAttempts p f c env n initialGenState).retry_count < MAX_RETRIES := by
      rw [hn.1]
      simp only [MAX_RETRIES]
      omega
    have ha := (attempt_spec p f c env
      (iterateAttempts p f c env n initialGenState) e h).1 ⟨hr, hlt⟩
    have estep : iterateAttempts p f c env (n + 1) initialGenState =
        (attempt p f c env (iterateAttempts p f c env n initialGenState)).1 := rfl
    rw [estep]
    exact ⟨by rw [ha.2.1, hn.1], fun _ => ha.1⟩

theorem iterate_budget (p : UserProfile) (f : GenerationFormat)
    (c : GenerationCustomization) (env : Env) (e : JsError)
    (h : (processPhase p f c env).2 = .error e) (hr : isRetriableError e = true) :
    (iterateAttempts p f c env 3 initialGenState).status = .queued ∧
    (iterateAttempts p f c env 3 initialGenState).retry_count = 3 ∧
    (iterateAttempts p f c env 4 initialGenState).status = .failed ∧
    (iterateAttempts p f c env 4 initialGenState).retry_count = 3 ∧
    ∀ n, (iterateAttempts p f c env n initialGenState).retry_count ≤ MAX_RETRIES := by
  have h3 := iterate_rc p f c env e h hr 3 (by omega)
  have hnot : ¬(isRetriableError e = true ∧
      (iterateAttempts p f c env 3 initialGenState).retry_count < MAX_RETRIES) := by
    rintro ⟨_, hc⟩
    rw [h3.1] at hc
    simp only [MAX_RETRIES] at hc
    omega
  have h4 := (attempt_spec p f c env
    (iterateAttempts p f c env 3 initialGenState) e h).2 hnot
  have estep : iterateAttempts p f c env 4 initialGenState =
      (attempt p f c env (iterateAttempts p f c env 3 initialGenState)).1 := rfl
  refine ⟨h3.2 (by omega), h3.1, by rw [estep]; exact h4.1,
    by rw [estep, h4.2.1, h3.1], ?_⟩
  intro n
  induction n with
  | zero =>
    simp only [iterateAttempts]
    simp [initialGenState, MAX_RETRIES]
  | succ n ih =>
    have estep2 : iterateAttempts p f c env (n + 1) initialGenState =
        (attempt p f c env (iterateAttempts p f c env n initialGenState)).1 := rfl
    rw [estep2]
    exact attempt_rc_le p f c env _ ih

/-! ## Helper lemmas shared by the claim theorems -/

theorem retrieve_empty (p : UserProfile) (f : GenerationFormat)
    (c : GenerationCustomization) (topK : Nat) :
    retrieveRelevantContext p f c topK (.ok ()) (.ok []) =
      .error (.genericErr "No relevant content found for this query") := rfl

theorem retrieve_ok_elim {p : UserProfile} {f : GenerationFormat}
    {c : GenerationCustomization} {topK : Nat} {chunks : List RAGChunk}
    {ctx : RAGContext} (hne : chunks ≠ [])
    (h : retrieveRelevantContext p f c topK (.ok ()) (.ok chunks) = .ok ctx) :
    ctx.chunks = diversifyByTheme chunks topK := by
  cases chunks with
  | nil => exact absurd rfl hne
  | cons a l =>
    have h2 : Except.ok
        { chunks := diversifyByTheme (a :: l) topK
          query := buildSemanticQuery p f c
          total_tokens :=
            ((diversifyByTheme (a :: l) topK).map (fun ch => ch.token_count)).sum } =
        Except.ok ctx := h
    injection h2 with h3
    rw [← h3]

theorem generateTakeawayPlan_ok_case (plan : Json) :
    generateTakeawayPlan (.ok plan) =
      (match validatePlanStructure plan with
       | .error e =>
         .error (.genericErr ("Failed to generate takeaway plan: " ++ e.message))
       | .ok _ => .ok plan) := rfl

theorem planStructure_ok_bools {plan : Json}
    (h : validatePlanStructure plan = .ok ()) :
    isObjLike plan = true ∧ nonEmptyStrField plan "title" = true ∧
    nonEmptyStrField plan "hook" = true ∧ keyPointsAtLeast3 plan = true ∧
    nonEmptyStrField plan "framing" = true ∧ nonEmptyStrField plan "cta" = true := by
  unfold validatePlanStructure at h
  split at h
  next hc1 => simp at h
  next hc1 =>
    split at h
    next hc2 => simp at h
    next hc2 =>
      split at h
      next hc3 => simp at h
      next hc3 =>
        split at h
        next hc4 => simp at h
        next hc4 =>
          split at h
          next hc5 => simp at h
          next hc5 =>
            split at h
            next hc6 => simp at h
            next hc6 =>
              exact ⟨by simpa using hc1, by simpa using hc2, by simpa using hc3,
                by simpa using hc4, by simpa using hc5, by simpa using hc6⟩

/-! ## The claims -/

/-- C1: for every candidate chunk list with at least 3 distinct topics and
every limit topK at least 3, the output of diversifyByTheme — and hence the
chunks field of the context returned by retrieveRelevantContext — covers at
least min(available topics, 3) distinct topics. -/
theorem diversification_guarantee (chunks : List RAGChunk) (topK : Nat)
    (h3 : 3 ≤ distinctThemes chunks) (hK : 3 ≤ topK) :
    min (distinctThemes chunks) 3 ≤ distinctThemes (diversifyByTheme chunks topK) ∧
    ∀ (p : UserProfile) (f : GenerationFormat) (c : GenerationCustomization)
      (ctx : RAGContext),
      retrieveRelevantContext p f c topK (.ok ()) (.ok chunks) = .ok ctx →
      min (distinctThemes chunks) 3 ≤ distinctThemes ctx.chunks := by
  have h1 := diversify_theme_lower_bound chunks topK
  have hmm : min (distinctThemes chunks) 3 ≤ min (distinctThemes chunks) topK := by
    omega
  have hmain : min (distinctThemes chunks) 3 ≤
      distinctThemes (diversifyByTheme chunks topK) := le_trans hmm h1
  refine ⟨hmain, ?_⟩
  intro p f c ctx hctx
  have hne : chunks ≠ [] := by
    intro he
    subst he
    exact absurd h3 (by decide)
  rw [retrieve_ok_elim hne hctx]
  exact hmain

theorem diversification_guarantee_witness :
    min (distinctThemes wChunksC1) 3 ≤ distinctThemes (diversifyByTheme wChunksC1 3) :=
  (diversification_guarantee wChunksC1 3 (by decide) (by decide)).1

/-- C8: the diversified output never covers fewer distinct topics than the
naive top-K cut (the first `limit` candidates in similarity order), the first
diversified chunks carry the distinct topics in stable first-seen group
order, and the result is deterministic in the candidate input. -/
theorem diversify_breadth_det (chunks chunks2 : List RAGChunk) (limit : Nat)
    (hsame : chunks2 = chunks) :
    distinctThemes (chunks.take limit) ≤
      distinctThemes (diversifyByTheme chunks limit) ∧
    ((diversifyByTheme chunks limit).map RAGChunk.theme).take
        (min (keysOf (groupByTheme chunks)).length limit) =
      (keysOf (groupByTheme chunks)).take
        (min (keysOf (groupByTheme chunks)).length limit) ∧
    diversifyByTheme chunks2 limit = diversifyByTheme chunks limit := by
  subst hsame
  exact ⟨le_trans (naive_take_distinct_le _ _) (diversify_theme_lower_bound _ _),
    diversify_firstSeen _ _, rfl⟩

theorem diversify_breadth_det_witness :
    distinctThemes (wChunksC1.take 2) ≤ distinctThemes (diversifyByTheme wChunksC1 2) ∧
    diversifyByTheme wChunksC1 2 = diversifyByTheme wChunksC1 2 :=
  ⟨(diversify_breadth_det wChunksC1 wChunksC1 2 rfl).1,
   (diversify_breadth_det wChunksC1 wChunksC1 2 rfl).2.2⟩

/-- C10: each of the three validators either returns normally or fails with a
GuardrailViolation; no other error type escapes them. -/
theorem validators_only_guardrail (instr : Option String) (plan : Json)
    (script : String) (o1 o2 o3 : Except JsError String) (e1 e2 e3 : JsError) :
    (validateExtraInstruction instr o1 = .error e1 → ∃ m, e1 = .guardrail m) ∧
    (validatePlan plan o2 = .error e2 → ∃ m, e2 = .guardrail m) ∧
    (validateScript script o3 = .error e3 → ∃ m, e3 = .guardrail m) :=
  ⟨fun h => validateExtraInstruction_error h,
   fun h => validatePlan_error h,
   fun h => validateScript_error h⟩

theorem validators_only_guardrail_witness :
    validateExtraInstruction (some "launch plan") (.ok "BLOCKED: bad words") =
      .error (.guardrail "bad words") ∧
    (∃ m, JsError.guardrail "bad words" = .guardrail m) := by
  refine ⟨rfl, ?_⟩
  exact (validators_only_guardrail (some "launch plan") demoPlan "s"
    (.ok "BLOCKED: bad words") (.ok "ok") (.ok "ok") (.guardrail "bad words")
    (.genericErr "z") (.genericErr "z")).1 rfl

/-- C2: on a processing-phase failure, if the error is classified retriable
and the persisted retry_count is below MAX_RETRIES (3), the run is re-queued
with retry_count incremented and a distinguishable GenerationError is
propagated instead of the raw error; otherwise the run is marked failed and
the original error is propagated.  A run that keeps failing with a retriable
error is queued with retry_count 3 after three attempts, failed on the 4th,
and retry_count never exceeds MAX_RETRIES. -/
theorem retry_policy (p : UserProfile) (f : GenerationFormat)
    (c : GenerationCustomization) (env : Env) (s : GenState) (e : JsError)
    (h : (processPhase p f c env).2 = .error e) :
    ((isRetriableError e = true ∧ s.retry_count < MAX_RETRIES) →
      (attempt p f c env s).1.status = .queued ∧
      (attempt p f c env s).1.retry_count = s.retry_count + 1 ∧
      (attempt p f c env s).2 =
        .error (.generationErr "Generation failed, retrying...")) ∧
    (¬(isRetriableError e = true ∧ s.retry_count < MAX_RETRIES) →
      (attempt p f c env s).1.status = .failed ∧
      (attempt p f c env s).1.retry_count = s.retry_count ∧
      (attempt p f c env s).2 = .error e) ∧
    (isRetriableError e = true →
      (iterateAttempts p f c env 3 initialGenState).status = .queued ∧
      (iterateAttempts p f c env 3 initialGenState).retry_count = 3 ∧
      (iterateAttempts p f c env 4 initialGenState).status = .failed ∧
      (iterateAttempts p f c env 4 initialGenState).retry_count = 3 ∧
      ∀ n, (iterateAttempts p f c env n initialGenState).retry_count ≤ MAX_RETRIES) := by
  refine ⟨(attempt_spec p f c env s e h).1, (attempt_spec p f c env s e h).2, ?_⟩
  intro hr
  exact iterate_budget p f c env e h hr

theorem retry_policy_witness :
    (attempt demoProfile .video demoCustomization envTimeout initialGenState).1.status
        = .queued ∧
    (attempt demoProfile .video demoCustomization envTimeout
        initialGenState).1.retry_count = 1 ∧
    (iterateAttempts demoProfile .video demoCustomization envTimeout 4
        initialGenState).status = .failed := by
  have h := retry_policy demoProfile .video demoCustomization envTimeout initialGenState
    (.genericErr "Failed to retrieve context: timeout") rfl
  exact ⟨(h.1 ⟨(by decide), (by decide)⟩).1, (h.1 ⟨(by decide), (by decide)⟩).2.1,
    (h.2.2 (by decide)).2.2.1⟩

/-- C9: a similarity search that yields zero chunks makes
retrieveRelevantContext fail with the retrieval error, the run is marked
failed, and that error is classified non-retriable so the failure is not
retried; with fewer than topK (but more than zero) candidates, all of them
are returned without error. -/
theorem retrieval_failure_handling (p : UserProfile) (f : GenerationFormat)
    (c : GenerationCustomization) (env : Env) (s0 : GenState) (rc topK : Nat) :
    (retrieveRelevantContext p f c topK (.ok ()) (.ok []) =
      .error (.genericErr "No relevant content found for this query")) ∧
    (isRetriableError (.genericErr "No relevant content found for this query")
      = false) ∧
    (env.searchOutcome = .ok [] → env.embedOutcome = .ok () →
      validateExtraInstruction c.extra_instruction env.instrChat = .ok () →
      (generateTakeaway p f c env rc).2 =
        .error (.genericErr "No relevant content found for this query") ∧
      (applyOps s0 (generateTakeaway p f c env rc).1).status = .failed) ∧
    (∀ (chunks : List RAGChunk) (ctx : RAGContext), chunks ≠ [] →
      chunks.length ≤ topK →
      retrieveRelevantContext p f c topK (.ok ()) (.ok chunks) = .ok ctx →
      List.Perm ctx.chunks chunks ∧ ctx.chunks.length = chunks.length) := by
  refine ⟨retrieve_empty p f c topK, by decide, ?_, ?_⟩
  · intro hs he hv
    have e0def : retrieveRelevantContext p f c TOP_K_CHUNKS env.embedOutcome
        env.searchOutcome =
        .error (.genericErr "No relevant content found for this query") := by
      rw [hs, he]
      exact retrieve_empty p f c TOP_K_CHUNKS
    have hpp : (processPhase p f c env).2 =
        .error (.genericErr "No relevant content found for this query") := by
      unfold processPhase
      rw [hv, e0def]
    have hnr : ¬(isRetriableError
        (.genericErr "No relevant content found for this query") = true ∧
        rc < MAX_RETRIES) := by
      rintro ⟨h1, _⟩
      exact absurd h1 (by decide)
    have hgt := generateTakeaway_of_fail p f c env rc _ hpp hnr
    constructor
    · rw [hgt]
    · rw [hgt]
      dsimp only
      rw [applyOps_append]
      rfl
  · intro chunks ctx hne hlen hret
    have hch := retrieve_ok_elim hne hret
    rw [hch]
    have hperm := diversify_perm_of_le chunks topK hlen
    exact ⟨hperm, hperm.length_eq⟩

theorem retrieval_failure_handling_witness :
    (generateTakeaway demoProfile .video demoCustomization envNoChunks 0).2 =
      .error (.genericErr "No relevant content found for this query") ∧
    (applyOps initialGenState
      (generateTakeaway demoProfile .video demoCustomization envNoChunks 0).1).status =
      .failed := by
  exact (retrieval_failure_handling demoProfile .video demoCustomization envNoChunks
    initialGenState 0 TOP_K_CHUNKS).2.2.1 rfl rfl rfl

/-- C4: if the second-stage LLM validation call of validatePlan or
validateScript fails with anything other than a GuardrailViolation, the
validator returns normally (fail-open), while a pattern-stage violation
detected before the LLM call always blocks with exactly that violation
(fail-closed). -/
theorem llm_stage_fail_open (plan : Json) (script : String) (e1 e2 : JsError)
    (h1 : ∀ m, e1 ≠ .guardrail m) (h2 : ∀ m, e2 ≠ .guardrail m) :
    (checkProhibited "Plan contains prohibited content: " (stringifyJson plan)
        = .ok () →
      validatePlan plan (.error e1) = .ok ()) ∧
    (checkProhibited "Script contains prohibited content: " script = .ok () →
      validateScript script (.error e2) = .ok ()) ∧
    (∀ (v : JsError) (o : Except JsError String),
      checkProhibited "Plan contains prohibited content: " (stringifyJson plan) =
        .error v → validatePlan plan o = .error v) ∧
    (∀ (v : JsError) (o : Except JsError String),
      checkProhibited "Script contains prohibited content: " script = .error v →
      validateScript script o = .error v) := by
  refine ⟨?_, ?_, fun v o hv => validatePlan_patterns_blocked o hv,
    fun v o hv => validateScript_patterns_blocked o hv⟩
  · intro hok
    unfold validatePlan
    rw [hok]
    show llmValidationStage (.error e1) = .ok ()
    unfold llmValidationStage
    exact catchGuard_nonguard h1
  · intro hok
    unfold validateScript
    rw [hok]
    show llmValidationStage (.error e2) = .ok ()
    unfold llmValidationStage
    exact catchGuard_nonguard h2

theorem llm_stage_fail_open_witness :
    validatePlan demoPlan (.error (.genericErr "ECONNRESET")) = .ok () ∧
    validateScript "A friendly walkthrough of the keynote ideas."
      (.error (.genericErr "ECONNRESET")) = .ok () := by
  have h := llm_stage_fail_open demoPlan
    "A friendly walkthrough of the keynote ideas."
    (.genericErr "ECONNRESET") (.genericErr "ECONNRESET")
    (fun m hm => JsError.noConfusion hm) (fun m hm => JsError.noConfusion hm)
  exact ⟨h.1 rfl, h.2.1 rfl⟩

/-- C7: when matches of all five prohibited categories are present in the
text — in whatever textual order — the pattern check of validatePlan and
validateScript blocks with the first matching category in the fixed scanning
order of PROHIBITED_PATTERNS; in general the reported category is the first
one in scanning order whose pattern matches. -/
theorem prohibited_first_match (plan : Json) (script : String)
    (o1 o2 : Except JsError String)
    (hall : ∀ pd ∈ PROHIBITED_PATTERNS, pd.1 (stringifyJson plan) = true)
    (hall2 : ∀ pd ∈ PROHIBITED_PATTERNS, pd.1 script = true) :
    validatePlan plan o1 =
      .error (.guardrail ("Plan contains prohibited content: " ++
        "Financial figures")) ∧
    validateScript script o2 =
      .error (.guardrail ("Script contains prohibited content: " ++
        "Financial figures")) ∧
    ∀ (t : String) (pd : (String → Bool) × String),
      PROHIBITED_PATTERNS.find? (fun x => x.1 t) = some pd →
      validateScript t o2 =
        .error (.guardrail ("Script contains prohibited content: " ++ pd.2)) := by
  refine ⟨validatePlan_patterns_blocked o1 (checkProhibited_first hall),
    validateScript_patterns_blocked o2 (checkProhibited_first hall2), ?_⟩
  intro t pd hfind
  apply validateScript_patterns_blocked
  unfold checkProhibited
  rw [hfind]

theorem prohibited_first_match_witness :
    validatePlan wBadPlan (.ok "APPROVED") =
      .error (.guardrail ("Plan contains prohibited content: " ++
        "Financial figures")) ∧
    validateScript wBadScript (.ok "APPROVED") =
      .error (.guardrail ("Script contains prohibited content: " ++
        "Financial figures")) := by
  have h := prohibited_first_match wBadPlan wBadScript (.ok "APPROVED")
    (.ok "APPROVED") (by decide) (by decide)
  exact ⟨h.1, h.2.1⟩

/-- C5: whenever the orchestrator leaves a run in status rendering, the
persisted script field is non-null and that script passed validateScript (in
particular it matches none of the five prohibited patterns); no operation
issued by generateTakeaway ever sets status completed. -/
theorem rendering_handoff (p : UserProfile) (f : GenerationFormat)
    (c : GenerationCustomization) (env : Env) (rc : Nat) (s0 : GenState) :
    ((applyOps s0 (generateTakeaway p f c env rc).1).status = .rendering →
      ∃ sc, (applyOps s0 (generateTakeaway p f c env rc).1).script = some sc ∧
        validateScript sc env.scriptValChat = .ok () ∧
        ∀ pd ∈ PROHIBITED_PATTERNS, pd.1 sc = false) ∧
    (∀ op ∈ (generateTakeaway p f c env rc).1, opStatus op ≠ some .completed) := by
  cases hres : (processPhase p f c env).2 with
  | ok u =>
    cases u
    obtain ⟨ctx, plan, sc, htr, hgs, hvs⟩ := (processPhase_shape p f c env).1 hres
    have hgt := generateTakeaway_of_ok p f c env rc hres
    constructor
    · intro _
      refine ⟨sc, ?_, hvs, validateScript_ok_patterns hvs⟩
      rw [hgt]
      dsimp only
      rw [htr, applyOps_append]
      rfl
    · intro op hop
      rw [hgt] at hop
      exact ((processPhase_shape p f c env).2.2 op hop).2
  | error e =>
    rcases Classical.em (isRetriableError e = true ∧ rc < MAX_RETRIES) with hc | hc
    · have hgt := generateTakeaway_of_retry p f c env rc e hres hc.1 hc.2
      constructor
      · intro hst
        rw [hgt] at hst
        dsimp only at hst
        rw [applyOps_append] at hst
        rw [show (applyOps (applyOps s0 (processPhase p f c env).1)
            [DbOp.retryUpdate]).status = GenerationStatus.queued from rfl] at hst
        exact absurd hst (by decide)
      · intro op hop
        rw [hgt] at hop
        dsimp only at hop
        rcases List.mem_append.mp hop with hop | hop
        · exact ((processPhase_shape p f c env).2.2 op hop).2
        · simp only [List.mem_singleton] at hop
          subst hop
          decide
    · have hgt := generateTakeaway_of_fail p f c env rc e hres hc
      constructor
      · intro hst
        rw [hgt] at hst
        dsimp only at hst
        rw [applyOps_append] at hst
        rw [show (applyOps (applyOps s0 (processPhase p f c env).1)
            [DbOp.failUpdate e.message]).status = GenerationStatus.failed from rfl] at hst
        exact absurd hst (by decide)
      · intro op hop
        rw [hgt] at hop
        dsimp only at hop
        rcases List.mem_append.mp hop with hop | hop
        · exact ((processPhase_shape p f c env).2.2 op hop).2
        · simp only [List.mem_singleton] at hop
          subst hop
          simp [opStatus]

theorem rendering_handoff_witness :
    (applyOps initialGenState
      (generateTakeaway demoProfile .video demoCustomization envHappy 0).1).status =
      .rendering ∧
    (applyOps initialGenState
      (generateTakeaway demoProfile .video demoCustomization envHappy 0).1).script =
      some "A friendly walkthrough of the keynote ideas." := by
  obtain ⟨sc, hsc, hval, hpat⟩ := (rendering_handoff demoProfile .video
    demoCustomization envHappy 0 initialGenState).1 (by decide)
  exact ⟨by decide, by decide⟩

/-- C3 counterexample: a GuardrailViolation raised during script validation
whose reason text contains the retriable wording `rate limit` IS retried —
the catch clause of generateTakeaway classifies errors by message pattern
only, without an instanceof check, so at retry_count 0 the run is re-queued
with retry_count 1 instead of being terminally failed. -/
theorem guardrail_retried_cex :
    (processPhase demoProfile .video demoCustomization envGuardRetriable).2 =
      .error (.guardrail "exceeds the rate limit policy") ∧
    isRetriableError (.guardrail "exceeds the rate limit policy") = true ∧
    (generateTakeaway demoProfile .video demoCustomization envGuardRetriable 0).2 =
      .error (.generationErr "Generation failed, retrying...") ∧
    (applyOps initialGenState
      (generateTakeaway demoProfile .video demoCustomization
        envGuardRetriable 0).1).status = .queued ∧
    (applyOps initialGenState
      (generateTakeaway demoProfile .video demoCustomization
        envGuardRetriable 0).1).retry_count = 1 :=
  ⟨rfl, by decide, rfl, by decide, by decide⟩

/-- C3 (amended): a GuardrailViolation raised during the processing phase is
terminal exactly when its message matches no retriable pattern or the retry
budget is exhausted; when its message happens to match a retriable pattern
and retry_count is below MAX_RETRIES it is retried like any other error.  The
five fixed pattern-stage violation messages never match a retriable pattern,
so pattern-stage violations are always terminal. -/
theorem guardrail_retry_amended (p : UserProfile) (f : GenerationFormat)
    (c : GenerationCustomization) (env : Env) (s : GenState) (m : String)
    (h : (processPhase p f c env).2 = .error (.guardrail m)) :
    ((isRetriableError (.guardrail m) = false ∨ ¬s.retry_count < MAX_RETRIES) →
      (attempt p f c env s).1.status = .failed ∧
      (attempt p f c env s).2 = .error (.guardrail m)) ∧
    (isRetriableError (.guardrail m) = true → s.retry_count < MAX_RETRIES →
      (attempt p f c env s).1.status = .queued ∧
      (attempt p f c env s).1.retry_count = s.retry_count + 1 ∧
      (attempt p f c env s).2 =
        .error (.generationErr "Generation failed, retrying...")) ∧
    (∀ pd ∈ PROHIBITED_PATTERNS,
      isRetriableError
        (.guardrail ("Plan contains prohibited content: " ++ pd.2)) = false ∧
      isRetriableError
        (.guardrail ("Script contains prohibited content: " ++ pd.2)) = false) := by
  refine ⟨?_, ?_, by decide⟩
  · intro hc
    have hnc : ¬(isRetriableError (.guardrail m) = true ∧
        s.retry_count < MAX_RETRIES) := by
      intro hcc
      rcases hc with hc | hc
      · rw [hc] at hcc
        exact Bool.noConfusion hcc.1
      · exact hc hcc.2
    have ha := (attempt_spec p f c env s (.guardrail m) h).2 hnc
    exact ⟨ha.1, ha.2.2⟩
  · intro h1 h2
    exact (attempt_spec p f c env s (.guardrail m) h).1 ⟨h1, h2⟩

theorem guardrail_retry_amended_witness :
    (attempt demoProfile .video demoCustomization envGuardPlain
      initialGenState).1.status = .failed ∧
    (attempt demoProfile .video demoCustomization envGuardPlain
      initialGenState).2 = .error (.guardrail "mentions pricing details") := by
  exact (guardrail_retry_amended demoProfile .video demoCustomization envGuardPlain
    initialGenState "mentions pricing details" rfl).1 (Or.inl (by decide))

/-- C6 counterexample: validatePlanStructure enforces neither the 60-character
title cap nor the 5-key-point upper bound — a plan with a 61-character title
and six key points passes generateTakeawayPlan unchanged — and a plan with
two key points fails with a plain Error (genericErr), not a GenerationError. -/
theorem plan_structure_cex :
    generateTakeawayPlan (.ok widePlan) = .ok widePlan ∧
    jsonLookup widePlan "title" = some (.str wideTitle) ∧
    60 < wideTitle.length ∧
    jsonLookup widePlan "key_points" = some (.arr wideKeyPoints) ∧
    5 < wideKeyPoints.length ∧
    generateTakeawayPlan (.ok thinPlan) =
      .error (.genericErr
        "Failed to generate takeaway plan: Plan must have at least 3 key points") :=
  ⟨rfl, rfl, by decide, rfl, by decide, rfl⟩

/-- C6 (amended): every plan returned by generateTakeawayPlan is the parsed
model output and satisfies exactly the checks of validatePlanStructure —
object shape, non-empty title, hook, framing and cta, and at least 3 key
points (no upper bounds); a plan without at least 3 key points always fails
with a plain Error, and the failure surfaces from the processing phase before
any guardrail validator is consulted. -/
theorem plan_structure_amended (pp : Except JsError Json) (j : Json) :
    (generateTakeawayPlan pp = .ok j →
      pp = .ok j ∧ validatePlanStructure j = .ok () ∧
      isObjLike j = true ∧ nonEmptyStrField j "title" = true ∧
      nonEmptyStrField j "hook" = true ∧ keyPointsAtLeast3 j = true ∧
      nonEmptyStrField j "framing" = true ∧ nonEmptyStrField j "cta" = true) ∧
    (keyPointsAtLeast3 j = false →
      ∃ m, generateTakeawayPlan (.ok j) = .error (.genericErr m)) ∧
    (∀ (p : UserProfile) (f : GenerationFormat) (c : GenerationCustomization)
        (env : Env) (e : JsError),
      validateExtraInstruction c.extra_instruction env.instrChat = .ok () →
      (∃ ctx, retrieveRelevantContext p f c TOP_K_CHUNKS env.embedOutcome
        env.searchOutcome = .ok ctx) →
      env.planParsed = .ok j →
      generateTakeawayPlan (.ok j) = .error e →
      (processPhase p f c env).2 = .error e) := by
  refine ⟨?_, ?_, ?_⟩
  · intro h
    cases pp with
    | error e => unfold generateTakeawayPlan at h; simp at h
    | ok plan =>
      rw [generateTakeawayPlan_ok_case plan] at h
      cases hv : validatePlanStructure plan with
      | error e =>
        rw [hv] at h
        simp at h
      | ok u =>
        cases u
        rw [hv] at h
        simp at h
        subst h
        have hb := planStructure_ok_bools hv
        exact ⟨rfl, hv, hb.1, hb.2.1, hb.2.2.1, hb.2.2.2.1, hb.2.2.2.2.1,
          hb.2.2.2.2.2⟩
  · intro hkp
    cases hv : validatePlanStructure j with
    | error e =>
      refine ⟨"Failed to generate takeaway plan: " ++ e.message, ?_⟩
      rw [generateTakeawayPlan_ok_case j, hv]
    | ok u =>
      cases u
      have hb := planStructure_ok_bools hv
      rw [hb.2.2.2.1] at hkp
      exact Bool.noConfusion hkp
  · intro p f c env e hval hret hpp hgen
    obtain ⟨ctx, hctx⟩ := hret
    unfold processPhase
    rw [hval, hctx, hpp, hgen]

theorem plan_structure_amended_witness :
    validatePlanStructure demoPlan = .ok () ∧
    (∃ m, generateTakeawayPlan (.ok thinPlan) = .error (.genericErr m)) := by
  refine ⟨((plan_structure_amended (.ok demoPlan) demoPlan).1 rfl).2.1, ?_⟩
  exact (plan_structure_amended (.ok thinPlan) thinPlan).2.1 (by decide)
